import Mathlib

/-!
# Rocca AEAD: a shallow embedding of `src/rocca.c` and its two backend headers

Buffers are lists of bytes, a pointer into a buffer is the buffer together with an
offset, and a pointer that may be `NULL` is an `Option`.  Every function that writes
through a pointer returns the new contents of the buffer.  A write never changes the
length of a buffer: bytes that would fall behind its end (undefined behaviour in C) are
dropped, and a read behind the end yields zero bytes.  The statements below say so
whenever they rely on a buffer being large enough.
-/

namespace Rocca

/-- A byte, `uint8_t`. -/
abbrev Byte := Fin 256

/-- The largest `size_t`; both backends (amd64, arm64) are 64-bit targets. -/
def SIZE_MAX : Nat := 2 ^ 64 - 1

/-- The enum constant `ROCCA_KEY_SIZE` of `rocca.h`. -/
def ROCCA_KEY_SIZE : Nat := 32

/-- The enum constant `ROCCA_NONCE_SIZE` of `rocca.h`. -/
def ROCCA_NONCE_SIZE : Nat := 16

/-- The enum constant `ROCCA_TAG_SIZE` of `rocca.h`. -/
def ROCCA_TAG_SIZE : Nat := 16

/-- The enum constant `ROCCA_OVERHEAD` of `rocca.h`. -/
def ROCCA_OVERHEAD : Nat := ROCCA_TAG_SIZE

/-- The enum constant `ROCCA_ROUNDS` of `rocca.c`. -/
def ROCCA_ROUNDS : Nat := 20

/-- The enum constant `ROCCA_BLOCK_SIZE` of `rocca.c`. -/
def ROCCA_BLOCK_SIZE : Nat := 32

/-- The type `u128` (`__m128i` on amd64, `uint8x16_t` on arm64): a 128-bit register.
Byte `i` of the register in memory order is bits `8 * i .. 8 * i + 7` of `val`. -/
structure U128 where
  val : Nat
  isLt : val < 2 ^ 128
deriving DecidableEq

/-- Reduction of a natural number to 128 bits. -/
def U128.ofNat (n : Nat) : U128 := ⟨n % 2 ^ 128, Nat.mod_lt _ (Nat.two_pow_pos 128)⟩

/-- Byte `i` of a natural number in little-endian order. -/
def byteAt (n i : Nat) : Nat := (n >>> (8 * i)) % 256

/-- The number whose little-endian byte `i` is `f i`, for `i < 16` and `f i < 256`. -/
def pack16 (f : Nat → Nat) : Nat :=
  f 0 + 2 ^ 8 * f 1 + 2 ^ 16 * f 2 + 2 ^ 24 * f 3 + 2 ^ 32 * f 4 + 2 ^ 40 * f 5 + 2 ^ 48 * f 6
    + 2 ^ 56 * f 7 + 2 ^ 64 * f 8 + 2 ^ 72 * f 9 + 2 ^ 80 * f 10 + 2 ^ 88 * f 11 + 2 ^ 96 * f 12
    + 2 ^ 104 * f 13 + 2 ^ 112 * f 14 + 2 ^ 120 * f 15

/-- Byte `i` (memory order) of a register. -/
def U128.byte (x : U128) (i : Nat) : Byte := ⟨byteAt x.val i, Nat.mod_lt _ (by decide)⟩

/-- The register whose byte `i` is `f i`, for `i < 16`. -/
def U128.ofFn (f : Nat → Byte) : U128 := U128.ofNat (pack16 fun i => (f i).val)

/-- The sixteen bytes of a register in memory order. -/
def U128.toBytes (x : U128) : List Byte := (List.range 16).map x.byte

/-- Lane `j` (of four) of a register read as `uint32x4_t`. -/
def U128.lane32 (x : U128) (j : Nat) : Nat := (x.val >>> (32 * j)) % 2 ^ 32

/-- Overwrite `dst[off ..]` with the bytes `src`, keeping the length of `dst`: the part of
`src` that does not fit is dropped. -/
def write (dst : List Byte) (off : Nat) (src : List Byte) : List Byte :=
  dst.take off ++ src.take (dst.length - off) ++ dst.drop (off + src.length)

/-- The libc call `memset(buf + off, c, n)`. -/
def memset (buf : List Byte) (off : Nat) (c : Byte) (n : Nat) : List Byte :=
  write buf off (List.replicate n c)

/-- The libc call `memset_s(buf, smax, c, n)` as the source uses it (`smax = n`). -/
def memset_s (buf : List Byte) (_smax : Nat) (c : Byte) (n : Nat) : List Byte :=
  write buf 0 (List.replicate n c)

/-- The libc call `memcpy(dst + doff, src + soff, n)`. -/
def memcpy (dst : List Byte) (doff : Nat) (src : List Byte) (soff : Nat) (n : Nat) : List Byte :=
  write dst doff ((src.drop soff).take n)

/-- The loop `for (i = 0; i < n; i++) body` over a state `σ`. -/
def forLoop {σ : Type} (n : Nat) (body : Nat → σ → σ) (init : σ) : σ :=
  (List.range n).foldl (fun st i => body i st) init

/-- The function `load_u128(src + off)` of both backends (`_mm_loadu_si128`, `vld1q_u8`):
sixteen bytes in memory order. -/
def load_u128 (src : List Byte) (off : Nat) : U128 := U128.ofFn fun i => src.getD (off + i) 0

/-- The function `store_u128(dst + off, x)` of both backends (`_mm_storeu_si128`, `vst1q_u8`). -/
def store_u128 (dst : List Byte) (off : Nat) (x : U128) : List Byte := write dst off x.toBytes

/-- The function `xor_u128` of both backends (`_mm_xor_si128`, `veorq_u8`). -/
def xor_u128 (a b : U128) : U128 := ⟨a.val ^^^ b.val, Nat.xor_lt_two_pow a.isLt b.isLt⟩

/-- The function `zero_u128` of both backends (`_mm_setzero_si128`, `vdupq_n_u8(0)`). -/
def zero_u128 : U128 := ⟨0, Nat.two_pow_pos 128⟩

/-- Modelled from the spec: the AES S-box (FIPS-197, figure 7) that the hardware AES
round of spec section 4.1 applies in SubBytes; entry `16 * x + y` (row `x`, column `y`)
is the image of the byte `16 * x + y`.  The instructions are not code of the repository. -/
def SBOX : List Nat := [
  0x63, 0x7c, 0x77, 0x7b, 0xf2, 0x6b, 0x6f, 0xc5, 0x30, 0x01, 0x67, 0x2b, 0xfe, 0xd7, 0xab, 0x76,
  0xca, 0x82, 0xc9, 0x7d, 0xfa, 0x59, 0x47, 0xf0, 0xad, 0xd4, 0xa2, 0xaf, 0x9c, 0xa4, 0x72, 0xc0,
  0xb7, 0xfd, 0x93, 0x26, 0x36, 0x3f, 0xf7, 0xcc, 0x34, 0xa5, 0xe5, 0xf1, 0x71, 0xd8, 0x31, 0x15,
  0x04, 0xc7, 0x23, 0xc3, 0x18, 0x96, 0x05, 0x9a, 0x07, 0x12, 0x80, 0xe2, 0xeb, 0x27, 0xb2, 0x75,
  0x09, 0x83, 0x2c, 0x1a, 0x1b, 0x6e, 0x5a, 0xa0, 0x52, 0x3b, 0xd6, 0xb3, 0x29, 0xe3, 0x2f, 0x84,
  0x53, 0xd1, 0x00, 0xed, 0x20, 0xfc, 0xb1, 0x5b, 0x6a, 0xcb, 0xbe, 0x39, 0x4a, 0x4c, 0x58, 0xcf,
  0xd0, 0xef, 0xaa, 0xfb, 0x43, 0x4d, 0x33, 0x85, 0x45, 0xf9, 0x02, 0x7f, 0x50, 0x3c, 0x9f, 0xa8,
  0x51, 0xa3, 0x40, 0x8f, 0x92, 0x9d, 0x38, 0xf5, 0xbc, 0xb6, 0xda, 0x21, 0x10, 0xff, 0xf3, 0xd2,
  0xcd, 0x0c, 0x13, 0xec, 0x5f, 0x97, 0x44, 0x17, 0xc4, 0xa7, 0x7e, 0x3d, 0x64, 0x5d, 0x19, 0x73,
  0x60, 0x81, 0x4f, 0xdc, 0x22, 0x2a, 0x90, 0x88, 0x46, 0xee, 0xb8, 0x14, 0xde, 0x5e, 0x0b, 0xdb,
  0xe0, 0x32, 0x3a, 0x0a, 0x49, 0x06, 0x24, 0x5c, 0xc2, 0xd3, 0xac, 0x62, 0x91, 0x95, 0xe4, 0x79,
  0xe7, 0xc8, 0x37, 0x6d, 0x8d, 0xd5, 0x4e, 0xa9, 0x6c, 0x56, 0xf4, 0xea, 0x65, 0x7a, 0xae, 0x08,
  0xba, 0x78, 0x25, 0x2e, 0x1c, 0xa6, 0xb4, 0xc6, 0xe8, 0xdd, 0x74, 0x1f, 0x4b, 0xbd, 0x8b, 0x8a,
  0x70, 0x3e, 0xb5, 0x66, 0x48, 0x03, 0xf6, 0x0e, 0x61, 0x35, 0x57, 0xb9, 0x86, 0xc1, 0x1d, 0x9e,
  0xe1, 0xf8, 0x98, 0x11, 0x69, 0xd9, 0x8e, 0x94, 0x9b, 0x1e, 0x87, 0xe9, 0xce, 0x55, 0x28, 0xdf,
  0x8c, 0xa1, 0x89, 0x0d, 0xbf, 0xe6, 0x42, 0x68, 0x41, 0x99, 0x2d, 0x0f, 0xb0, 0x54, 0xbb, 0x16]

/-- Modelled from the spec: the S-box as one number, entry `b` in bits `8 * b .. 8 * b + 7`. -/
def SBOX_packed : Nat := SBOX.foldr (fun b acc => b + 256 * acc) 0

/-- Modelled from the spec: SubBytes on one byte. -/
def SubByte (b : Nat) : Nat := byteAt SBOX_packed b

/-- Modelled from the spec: multiplication by `x` in GF(2^8) modulo `x^8 + x^4 + x^3 + x + 1`. -/
def xtime (b : Nat) : Nat := ((2 * b) ^^^ ((b / 128) * 0x1b)) % 256

/-- Modelled from the spec: SubBytes of the AES round (spec section 4.1). -/
def SubBytes (x : U128) : U128 := U128.ofNat (pack16 fun i => SubByte (byteAt x.val i))

/-- Modelled from the spec: ShiftRows of the AES round; byte `4 * c + r` is row `r` of
column `c`, and row `r` is rotated left by `r` columns. -/
def ShiftRows (x : U128) : U128 :=
  U128.ofNat (pack16 fun i => byteAt x.val ((i + 4 * (i % 4)) % 16))

/-- Modelled from the spec: MixColumns on one column `a0 a1 a2 a3`: the product with the
matrix of rows `2 3 1 1`, `1 2 3 1`, `1 1 2 3`, `3 1 1 2`, as a little-endian 32-bit word. -/
def MixColumn (a0 a1 a2 a3 : Nat) : Nat :=
  let d0 := xtime a0
  let d1 := xtime a1
  let d2 := xtime a2
  let d3 := xtime a3
  (d0 ^^^ (d1 ^^^ a1) ^^^ a2 ^^^ a3)
    + 2 ^ 8 * (a0 ^^^ d1 ^^^ (d2 ^^^ a2) ^^^ a3)
    + 2 ^ 16 * (a0 ^^^ a1 ^^^ d2 ^^^ (d3 ^^^ a3))
    + 2 ^ 24 * ((d0 ^^^ a0) ^^^ a1 ^^^ a2 ^^^ d3)

/-- Modelled from the spec: MixColumns of the AES round, column by column. -/
def MixColumns (x : U128) : U128 :=
  let v := x.val
  U128.ofNat
    (MixColumn (byteAt v 0) (byteAt v 1) (byteAt v 2) (byteAt v 3)
      + 2 ^ 32 * MixColumn (byteAt v 4) (byteAt v 5) (byteAt v 6) (byteAt v 7)
      + 2 ^ 64 * MixColumn (byteAt v 8) (byteAt v 9) (byteAt v 10) (byteAt v 11)
      + 2 ^ 96 * MixColumn (byteAt v 12) (byteAt v 13) (byteAt v 14) (byteAt v 15))

/-- Modelled from the spec: the intrinsic `_mm_aesenc_si128` (AESENC): ShiftRows, SubBytes,
MixColumns, then xor with the round key. -/
def _mm_aesenc_si128 (a rk : U128) : U128 := xor_u128 (MixColumns (SubBytes (ShiftRows a))) rk

/-- Modelled from the spec: the intrinsic `_mm_cmpeq_epi8`: byte `i` of the result is `0xff`
when the bytes `i` of the arguments are equal and `0x00` otherwise. -/
def _mm_cmpeq_epi8 (a b : U128) : U128 := U128.ofFn fun i => if a.byte i = b.byte i then 0xff else 0

/-- Modelled from the spec: the intrinsic `_mm_movemask_epi8`: bit `i` of the result is the
most significant bit of byte `i`. -/
def _mm_movemask_epi8 (x : U128) : Nat :=
  (List.range 16).foldl (fun acc i => acc + 2 ^ i * (byteAt x.val i / 128)) 0

/-- Modelled from the spec: the intrinsic `vaeseq_u8` (AESE): xor with the key, then
ShiftRows and SubBytes. -/
def vaeseq_u8 (data key : U128) : U128 := SubBytes (ShiftRows (xor_u128 data key))

/-- Modelled from the spec: the intrinsic `vaesmcq_u8` (AESMC): MixColumns. -/
def vaesmcq_u8 (x : U128) : U128 := MixColumns x

/-- Modelled from the spec: the intrinsic `veorq_u8`: bitwise xor. -/
def veorq_u8 (a b : U128) : U128 := xor_u128 a b

/-- Modelled from the spec: the intrinsic `vdupq_n_u8`: all sixteen bytes are `b`. -/
def vdupq_n_u8 (b : Byte) : U128 := U128.ofFn fun _ => b

/-- Modelled from the spec: the intrinsic `vreinterpretq_u64_u8`: the same 128 bits, typed as
two 64-bit lanes. -/
def vreinterpretq_u64_u8 (x : U128) : U128 := x

/-- Modelled from the spec: the intrinsic `vceqzq_u8`: byte `i` of the result is `0xff` when
byte `i` of the argument is zero and `0x00` otherwise. -/
def vceqzq_u8 (x : U128) : U128 := U128.ofFn fun i => if x.byte i = 0 then 0xff else 0

/-- Modelled from the spec: the intrinsic `vminvq_u32`: the minimum of the four 32-bit
lanes. -/
def vminvq_u32 (x : U128) : Nat := min (min (x.lane32 0) (x.lane32 1)) (min (x.lane32 2) (x.lane32 3))

/-- The two functions of a backend header whose bodies differ in substance between
`rocca_amd64.h` and `rocca_arm64.h`; `rocca.c` includes exactly one of the two headers, so
its functions take the backend as a parameter. -/
structure Backend where
  aes_round : U128 → U128 → U128
  constant_time_compare_u128 : U128 → U128 → Bool

/-- The function `aes_round` of `rocca_amd64.h`. -/
def Amd64.aes_round (x rk : U128) : U128 := _mm_aesenc_si128 x rk

/-- The function `constant_time_compare_u128` of `rocca_amd64.h`. -/
def Amd64.constant_time_compare_u128 (a b : U128) : Bool :=
  let x := _mm_cmpeq_epi8 a b
  _mm_movemask_epi8 x == 0xffff

/-- The function `aes_round` of `rocca_arm64.h`. -/
def Arm64.aes_round (x rk : U128) : U128 :=
  let x := vaeseq_u8 (vdupq_n_u8 0) x
  let x := vaesmcq_u8 x
  let x := veorq_u8 x rk
  x

/-- The function `constant_time_compare_u128` of `rocca_arm64.h`; `vminvq_u32` reads the
register it is handed as four 32-bit lanes. -/
def Arm64.constant_time_compare_u128 (a b : U128) : Bool :=
  let x := veorq_u8 a b
  let x := vceqzq_u8 x
  vminvq_u32 (vreinterpretq_u64_u8 x) != 0

/-- The backend `rocca_amd64.h`. -/
def amd64 : Backend := ⟨Amd64.aes_round, Amd64.constant_time_compare_u128⟩

/-- The backend `rocca_arm64.h`. -/
def arm64 : Backend := ⟨Arm64.aes_round, Arm64.constant_time_compare_u128⟩

/-- The constant block `Z0` of `rocca.c`. -/
def Z0 : List Byte :=
  [0xcd, 0x65, 0xef, 0x23, 0x91, 0x44, 0x37, 0x71, 0x22, 0xae, 0x28, 0xd7, 0x98, 0x2f, 0x8a, 0x42]

/-- The constant block `Z1` of `rocca.c`. -/
def Z1 : List Byte :=
  [0xbc, 0xdb, 0x89, 0x81, 0xa5, 0xdb, 0xb5, 0xe9, 0x2f, 0x3b, 0x4d, 0xec, 0xcf, 0xfb, 0xc0, 0xb5]

/-- The type `rocca_state`, `u128[8]`. -/
structure rocca_state where
  s0 : U128
  s1 : U128
  s2 : U128
  s3 : U128
  s4 : U128
  s5 : U128
  s6 : U128
  s7 : U128
deriving DecidableEq

/-- The function `rocca_update` of `rocca.c`. -/
def rocca_update (B : Backend) (s : rocca_state) (x0 x1 : U128) : rocca_state :=
  let t0 := xor_u128 s.s7 x0
  let t1 := B.aes_round s.s0 s.s7
  let t2 := xor_u128 s.s1 s.s6
  let t3 := B.aes_round s.s2 s.s1
  let t4 := xor_u128 s.s3 x1
  let t5 := B.aes_round s.s4 s.s3
  let t6 := B.aes_round s.s5 s.s4
  let t7 := xor_u128 s.s0 s.s6
  { s0 := t0, s1 := t1, s2 := t2, s3 := t3, s4 := t4, s5 := t5, s6 := t6, s7 := t7 }

/-- The function `rocca_init` of `rocca.c`. -/
def rocca_init (B : Backend) (key nonce : List Byte) : rocca_state :=
  let z0 := load_u128 Z0 0
  let z1 := load_u128 Z1 0
  let k0 := load_u128 key 0
  let k1 := load_u128 key (ROCCA_KEY_SIZE / 2)
  let N := load_u128 nonce 0
  let s : rocca_state :=
    { s0 := k1, s1 := N, s2 := z0, s3 := z1, s4 := xor_u128 N k1, s5 := zero_u128, s6 := k0,
      s7 := zero_u128 }
  forLoop ROCCA_ROUNDS (fun _ s => rocca_update B s z0 z1) s

/-- The function `rocca_enc` of `rocca.c`: `dst + doff` receives the ciphertext of the block
at `src + soff`.  Both halves are loaded before anything is stored, so `dst` may be `src`. -/
def rocca_enc (B : Backend) (s : rocca_state) (dst : List Byte) (doff : Nat) (src : List Byte)
    (soff : Nat) : rocca_state × List Byte :=
  let m0 := load_u128 src soff
  let m1 := load_u128 src (soff + ROCCA_BLOCK_SIZE / 2)
  let c0 := B.aes_round s.s1 s.s5
  let c0 := xor_u128 c0 m0
  let c1 := xor_u128 s.s0 s.s4
  let c1 := B.aes_round c1 s.s2
  let c1 := xor_u128 c1 m1
  let dst := store_u128 dst doff c0
  let dst := store_u128 dst (doff + ROCCA_BLOCK_SIZE / 2) c1
  (rocca_update B s m0 m1, dst)

/-- The function `rocca_dec` of `rocca.c`. -/
def rocca_dec (B : Backend) (s : rocca_state) (dst : List Byte) (doff : Nat) (src : List Byte)
    (soff : Nat) : rocca_state × List Byte :=
  let c0 := load_u128 src soff
  let c1 := load_u128 src (soff + ROCCA_BLOCK_SIZE / 2)
  let m0 := B.aes_round s.s1 s.s5
  let m0 := xor_u128 m0 c0
  let m1 := xor_u128 s.s0 s.s4
  let m1 := B.aes_round m1 s.s2
  let m1 := xor_u128 m1 c1
  let dst := store_u128 dst doff m0
  let dst := store_u128 dst (doff + ROCCA_BLOCK_SIZE / 2) m1
  (rocca_update B s m0 m1, dst)

/-- The function `rocca_dec_partial` of `rocca.c`; `src` is a 32-byte block and
`dst_len < 32` in its only call. -/
def rocca_dec_partial (B : Backend) (s : rocca_state) (dst : List Byte) (doff : Nat)
    (dst_len : Nat) (src : List Byte) : rocca_state × List Byte :=
  let c0 := load_u128 src 0
  let c1 := load_u128 src (ROCCA_BLOCK_SIZE / 2)
  let m0 := B.aes_round s.s1 s.s5
  let m0 := xor_u128 m0 c0
  let m1 := xor_u128 s.s0 s.s4
  let m1 := B.aes_round m1 s.s2
  let m1 := xor_u128 m1 c1
  let pad : List Byte := List.replicate ROCCA_BLOCK_SIZE 0
  let pad := store_u128 pad 0 m0
  let pad := store_u128 pad (ROCCA_BLOCK_SIZE / 2) m1
  let pad := memset pad dst_len 0 (ROCCA_BLOCK_SIZE - dst_len)
  let dst := memcpy dst doff pad 0 dst_len
  let p0 := load_u128 pad 0
  let p1 := load_u128 pad (ROCCA_BLOCK_SIZE / 2)
  (rocca_update B s p0 p1, dst)

/-- The function `put_le64` of `rocca.c`: `b[i] = (uint8_t)(v >> 8 * i)` for `i < 8`. -/
def put_le64 (b : List Byte) (v : Nat) : List Byte :=
  write b 0 ((List.range 8).map fun i => Fin.ofNat (v >>> (8 * i)))

/-- The function `rocca_mac` of `rocca.c`; its arguments are `uint64_t`, so the bit counts
are taken modulo `2 ^ 64`. -/
def rocca_mac (B : Backend) (s : rocca_state) (additional_data_len plaintext_len : Nat) : U128 :=
  let buf : List Byte := List.replicate 16 0
  let buf := put_le64 buf ((additional_data_len * 8) % 2 ^ 64)
  let ad := load_u128 buf 0
  let buf := put_le64 buf ((plaintext_len * 8) % 2 ^ 64)
  let pt := load_u128 buf 0
  let s := forLoop ROCCA_ROUNDS (fun _ s => rocca_update B s ad pt) s
  let tag := s.s0
  let tag := xor_u128 tag s.s1
  let tag := xor_u128 tag s.s2
  let tag := xor_u128 tag s.s3
  let tag := xor_u128 tag s.s4
  let tag := xor_u128 tag s.s5
  let tag := xor_u128 tag s.s6
  let tag := xor_u128 tag s.s7
  tag

/-- The associated-data phase that `rocca_seal` (lines 225-242) and `rocca_open`
(lines 306-323) share word for word: returns the state and the scratch block `tmp`. -/
def absorb_ad (B : Backend) (s : rocca_state) (tmp : List Byte) (additional_data : List Byte)
    (additional_data_len : Nat) : rocca_state × List Byte :=
  let nblocks := additional_data_len / ROCCA_BLOCK_SIZE
  let s := forLoop nblocks (fun i s =>
    let a0 := load_u128 additional_data (i * ROCCA_BLOCK_SIZE)
    let a1 := load_u128 additional_data (i * ROCCA_BLOCK_SIZE + ROCCA_BLOCK_SIZE / 2)
    rocca_update B s a0 a1) s
  let remain := additional_data_len % ROCCA_BLOCK_SIZE
  if remain ≠ 0 then
    let tmp := memset tmp 0 0 ROCCA_BLOCK_SIZE
    let tmp := memcpy tmp 0 additional_data 0 remain
    let a0 := load_u128 tmp 0
    let a1 := load_u128 tmp (ROCCA_BLOCK_SIZE / 2)
    (rocca_update B s a0 a1, tmp)
  else (s, tmp)

/-- The encryption phase of `rocca_seal` (lines 244-258): returns the state, the scratch
block `tmp` and the destination. -/
def encrypt_pt (B : Backend) (s : rocca_state) (tmp : List Byte) (dst : List Byte)
    (plaintext : List Byte) (plaintext_len : Nat) : rocca_state × List Byte × List Byte :=
  let nblocks := plaintext_len / ROCCA_BLOCK_SIZE
  let st := forLoop nblocks (fun i (st : rocca_state × List Byte) =>
    rocca_enc B st.1 st.2 (i * ROCCA_BLOCK_SIZE) plaintext (i * ROCCA_BLOCK_SIZE)) (s, dst)
  let remain := plaintext_len % ROCCA_BLOCK_SIZE
  if remain ≠ 0 then
    let tmp := memset tmp 0 0 ROCCA_BLOCK_SIZE
    let tmp := memcpy tmp 0 plaintext 0 remain
    let e := rocca_enc B st.1 tmp 0 tmp 0
    let dst := memcpy st.2 0 e.2 0 remain
    (e.1, e.2, dst)
  else (st.1, tmp, st.2)

/-- The decryption phase of `rocca_open` (lines 325-338); `ciphertext_len` is the length
without the tag. -/
def decrypt_ct (B : Backend) (s : rocca_state) (tmp : List Byte) (dst : List Byte)
    (ciphertext : List Byte) (ciphertext_len : Nat) : rocca_state × List Byte × List Byte :=
  let nblocks := ciphertext_len / ROCCA_BLOCK_SIZE
  let st := forLoop nblocks (fun i (st : rocca_state × List Byte) =>
    rocca_dec B st.1 st.2 (i * ROCCA_BLOCK_SIZE) ciphertext (i * ROCCA_BLOCK_SIZE)) (s, dst)
  let remain := ciphertext_len % ROCCA_BLOCK_SIZE
  if remain ≠ 0 then
    let tmp := memset tmp 0 0 ROCCA_BLOCK_SIZE
    let tmp := memcpy tmp 0 ciphertext 0 remain
    let d := rocca_dec_partial B st.1 st.2 (nblocks * ROCCA_BLOCK_SIZE) remain tmp
    (d.1, tmp, d.2)
  else (st.1, tmp, st.2)

/-- The function `rocca_seal` of `rocca.c`.  A pointer argument is `none` for `NULL` and
otherwise the buffer it points to; the result is the returned `bool` and the final
contents of `dst`.  Behind the validation no pointer is `NULL` unless its length is zero,
in which case it is never read. -/
def rocca_seal (B : Backend) (dst : Option (List Byte)) (dst_len : Nat)
    (key : Option (List Byte)) (key_len : Nat) (nonce : Option (List Byte)) (nonce_len : Nat)
    (plaintext : Option (List Byte)) (plaintext_len : Nat)
    (additional_data : Option (List Byte)) (additional_data_len : Nat) :
    Bool × Option (List Byte) :=
  match dst with
  | none => (false, none)
  | some dst =>
    if decide (SIZE_MAX - plaintext_len < ROCCA_OVERHEAD) then
      (false, some (memset_s dst dst_len 0 dst_len))
    else if key.isNone || key_len != ROCCA_KEY_SIZE then
      (false, some (memset_s dst dst_len 0 dst_len))
    else if nonce.isNone || nonce_len != ROCCA_NONCE_SIZE then
      (false, some (memset_s dst dst_len 0 dst_len))
    else if (plaintext.isNone != (plaintext_len == 0)) ||
        (additional_data.isNone != (additional_data_len == 0)) then
      (false, some (memset_s dst dst_len 0 dst_len))
    else
      let key := key.getD []
      let nonce := nonce.getD []
      let plaintext := plaintext.getD []
      let additional_data := additional_data.getD []
      let s := rocca_init B key nonce
      let tmp : List Byte := List.replicate ROCCA_BLOCK_SIZE 0
      let a := absorb_ad B s tmp additional_data additional_data_len
      let e := encrypt_pt B a.1 a.2 dst plaintext plaintext_len
      let nblocks := plaintext_len / ROCCA_BLOCK_SIZE
      let remain := plaintext_len % ROCCA_BLOCK_SIZE
      let tag := rocca_mac B e.1 additional_data_len plaintext_len
      let dst := store_u128 e.2.2 (nblocks * ROCCA_BLOCK_SIZE + remain) tag
      let _tmp := memset_s e.2.1 ROCCA_BLOCK_SIZE 0 ROCCA_BLOCK_SIZE
      (true, some dst)

/-- The function `rocca_open` of `rocca.c`, with the conventions of `rocca_seal`; `dst` and
`ciphertext` are distinct buffers. -/
def rocca_open (B : Backend) (dst : Option (List Byte)) (dst_len : Nat)
    (key : Option (List Byte)) (key_len : Nat) (nonce : Option (List Byte)) (nonce_len : Nat)
    (ciphertext : Option (List Byte)) (ciphertext_len : Nat)
    (additional_data : Option (List Byte)) (additional_data_len : Nat) :
    Bool × Option (List Byte) :=
  match dst with
  | none => (false, none)
  | some dst =>
    if ciphertext.isNone || decide (ciphertext_len < ROCCA_OVERHEAD) then
      (false, some (memset_s dst dst_len 0 dst_len))
    else if key.isNone || key_len != ROCCA_KEY_SIZE then
      (false, some (memset_s dst dst_len 0 dst_len))
    else if nonce.isNone || nonce_len != ROCCA_NONCE_SIZE then
      (false, some (memset_s dst dst_len 0 dst_len))
    else if additional_data.isNone != (additional_data_len == 0) then
      (false, some (memset_s dst dst_len 0 dst_len))
    else
      let key := key.getD []
      let nonce := nonce.getD []
      let ciphertext := ciphertext.getD []
      let additional_data := additional_data.getD []
      let ciphertext_len := ciphertext_len - ROCCA_TAG_SIZE
      let tag := load_u128 ciphertext ciphertext_len
      let s := rocca_init B key nonce
      let tmp : List Byte := List.replicate ROCCA_BLOCK_SIZE 0
      let a := absorb_ad B s tmp additional_data additional_data_len
      let d := decrypt_ct B a.1 a.2 dst ciphertext ciphertext_len
      let _tmp := memset_s d.2.1 ROCCA_BLOCK_SIZE 0 ROCCA_BLOCK_SIZE
      let expectedTag := rocca_mac B d.1 additional_data_len ciphertext_len
      if !B.constant_time_compare_u128 tag expectedTag then
        (false, some (memset_s d.2.2 dst_len 0 dst_len))
      else (true, some d.2.2)

/-- The type `vector` of `test_vectors` in `test.c`; the arrays have their declared sizes
(32, 16, 32, 64 and 80 bytes), unlisted elements being zero. -/
structure vector where
  key : List Byte
  nonce : List Byte
  additional_data : List Byte
  additional_data_len : Nat
  plaintext : List Byte
  ciphertext : List Byte

/-- Test vector #1 of `test_vectors` in `test.c`. -/
def vector_1 : vector where
  key := List.replicate 32 0x00
  nonce := List.replicate 16 0x00
  additional_data := List.replicate 32 0x00
  additional_data_len := 32
  plaintext := List.replicate 64 0x00
  ciphertext := [
    0x15, 0x89, 0x2f, 0x85, 0x55, 0xad, 0x2d, 0xb4, 0x74, 0x9b, 0x90, 0x92, 0x65, 0x71, 0xc4, 0xb8,
    0xc2, 0x8b, 0x43, 0x4f, 0x27, 0x77, 0x93, 0xc5, 0x38, 0x33, 0xcb, 0x6e, 0x41, 0xa8, 0x55, 0x29,
    0x17, 0x84, 0xa2, 0xc7, 0xfe, 0x37, 0x4b, 0x34, 0xd8, 0x75, 0xfd, 0xcb, 0xe8, 0x4f, 0x5b, 0x88,
    0xbf, 0x3f, 0x38, 0x6f, 0x22, 0x18, 0xf0, 0x46, 0xa8, 0x43, 0x18, 0x56, 0x50, 0x26, 0xd7, 0x55,
    0xcc, 0x72, 0x8c, 0x8b, 0xae, 0xdd, 0x36, 0xf1, 0x4c, 0xf8, 0x93, 0x8e, 0x9e, 0x07, 0x19, 0xbf]

/-- Test vector #2 of `test_vectors` in `test.c`. -/
def vector_2 : vector where
  key := List.replicate 32 0x01
  nonce := List.replicate 16 0x01
  additional_data := List.replicate 32 0x01
  additional_data_len := 32
  plaintext := List.replicate 64 0x00
  ciphertext := [
    0xf9, 0x31, 0xa8, 0x73, 0x0b, 0x2e, 0x8a, 0x3a, 0xf3, 0x41, 0xc8, 0x3a, 0x29, 0xc3, 0x05, 0x25,
    0x32, 0x5c, 0x17, 0x03, 0x26, 0xc2, 0x9d, 0x91, 0xb2, 0x4d, 0x71, 0x4f, 0xec, 0xf3, 0x85, 0xfd,
    0x88, 0xe6, 0x50, 0xef, 0x2e, 0x2c, 0x02, 0xb3, 0x7b, 0x19, 0xe7, 0x0b, 0xb9, 0x3f, 0xf8, 0x2a,
    0xa9, 0x6d, 0x50, 0xc9, 0xfd, 0xf0, 0x53, 0x43, 0xf6, 0xe3, 0x6b, 0x66, 0xee, 0x7b, 0xda, 0x69,
    0xba, 0xd0, 0xa5, 0x36, 0x16, 0x59, 0x9b, 0xfd, 0xb5, 0x53, 0x78, 0x8f, 0xda, 0xab, 0xad, 0x78]

/-- Test vector #3 of `test_vectors` in `test.c`. -/
def vector_3 : vector where
  key := [
    0x01, 0x23, 0x45, 0x67, 0x89, 0xab, 0xcd, 0xef, 0x01, 0x23, 0x45, 0x67, 0x89, 0xab, 0xcd, 0xef,
    0x01, 0x23, 0x45, 0x67, 0x89, 0xab, 0xcd, 0xef, 0x01, 0x23, 0x45, 0x67, 0x89, 0xab, 0xcd, 0xef]
  nonce := [0x01, 0x23, 0x45, 0x67, 0x89, 0xab, 0xcd, 0xef, 0x01, 0x23, 0x45, 0x67, 0x89, 0xab, 0xcd, 0xef]
  additional_data := [
    0x01, 0x23, 0x45, 0x67, 0x89, 0xab, 0xcd, 0xef, 0x01, 0x23, 0x45, 0x67, 0x89, 0xab, 0xcd, 0xef,
    0x01, 0x23, 0x45, 0x67, 0x89, 0xab, 0xcd, 0xef, 0x01, 0x23, 0x45, 0x67, 0x89, 0xab, 0xcd, 0xef]
  additional_data_len := 32
  plaintext := List.replicate 64 0x00
  ciphertext := [
    0x26, 0x5b, 0x7e, 0x31, 0x41, 0x41, 0xfd, 0x14, 0x82, 0x35, 0xa5, 0x30, 0x5b, 0x21, 0x7a, 0xb2,
    0x91, 0xa2, 0xa7, 0xae, 0xff, 0x91, 0xef, 0xd3, 0xac, 0x60, 0x3b, 0x28, 0xe0, 0x57, 0x61, 0x09,
    0x72, 0x34, 0x22, 0xef, 0x3f, 0x55, 0x3b, 0x0b, 0x07, 0xce, 0x72, 0x63, 0xf6, 0x35, 0x02, 0xa0,
    0x05, 0x91, 0xde, 0x64, 0x8f, 0x3e, 0xe3, 0xb0, 0x54, 0x41, 0xd8, 0x31, 0x3b, 0x13, 0x8b, 0x5a,
    0x66, 0x72, 0x53, 0x4a, 0x8b, 0x57, 0xc2, 0x87, 0xbc, 0xf5, 0x68, 0x23, 0xcd, 0x1c, 0xdb, 0x5a]

/-- Test vector #4 of `test_vectors` in `test.c`. -/
def vector_4 : vector where
  key := [
    0x11, 0x11, 0x11, 0x11, 0x11, 0x11, 0x11, 0x11, 0x11, 0x11, 0x11, 0x11, 0x11, 0x11, 0x11, 0x11,
    0x22, 0x22, 0x22, 0x22, 0x22, 0x22, 0x22, 0x22, 0x22, 0x22, 0x22, 0x22, 0x22, 0x22, 0x22, 0x22]
  nonce := List.replicate 16 0x44
  additional_data := [
    0x80, 0x81, 0x82, 0x83, 0x84, 0x85, 0x86, 0x87, 0x88, 0x89, 0x8a, 0x8b, 0x8c, 0x8d, 0x8e, 0x8f,
    0x90, 0x91, 0x00, 0x00, 0x00, 0x00, 0x00, 0x00, 0x00, 0x00, 0x00, 0x00, 0x00, 0x00, 0x00, 0x00]
  additional_data_len := 18
  plaintext := [
    0x00, 0x01, 0x02, 0x03, 0x04, 0x05, 0x06, 0x07, 0x08, 0x09, 0x0a, 0x0b, 0x0c, 0x0d, 0x0e, 0x0f,
    0x10, 0x11, 0x12, 0x13, 0x14, 0x15, 0x16, 0x17, 0x18, 0x19, 0x1a, 0x1b, 0x1c, 0x1d, 0x1e, 0x1f,
    0x20, 0x21, 0x22, 0x23, 0x24, 0x25, 0x26, 0x27, 0x28, 0x29, 0x2a, 0x2b, 0x2c, 0x2d, 0x2e, 0x2f,
    0x30, 0x31, 0x32, 0x33, 0x34, 0x35, 0x36, 0x37, 0x38, 0x39, 0x3a, 0x3b, 0x3c, 0x3d, 0x3e, 0x3f]
  ciphertext := [
    0x34, 0x8b, 0x6f, 0x6e, 0xfa, 0xd8, 0x07, 0xd2, 0x46, 0xeb, 0xf3, 0x45, 0xe7, 0x30, 0xd8, 0x3e,
    0x59, 0x63, 0xbd, 0x6d, 0x29, 0xee, 0xdc, 0x49, 0xa1, 0x35, 0x40, 0x54, 0x5a, 0xe2, 0x32, 0xa7,
    0x03, 0x4e, 0xd4, 0xef, 0x19, 0x8a, 0x1e, 0xb1, 0xf8, 0xb1, 0x16, 0xa1, 0x76, 0x03, 0x54, 0xb7,
    0x72, 0x60, 0xd6, 0xf2, 0xcc, 0xa4, 0x6e, 0xfc, 0xad, 0xfc, 0x47, 0x65, 0xff, 0xfe, 0x9f, 0x09,
    0xa9, 0xf2, 0x06, 0x94, 0x56, 0x55, 0x9d, 0xe3, 0xe6, 0x9d, 0x23, 0x3e, 0x15, 0x4b, 0xa0, 0x5e]

/-- The two calls of one iteration of the loop of `test_vectors` in `test.c` (lines 268-295)
on the vector `v`, with the outcome the test asks for: `rocca_seal` into a zeroed 80-byte
buffer returns true and leaves `v.ciphertext`, and `rocca_open` of `v.ciphertext` into a
zeroed 64-byte buffer returns true.  The test does not look at the bytes `rocca_open`
leaves; here they are required to be `v.plaintext`. -/
def test_vector_ok (B : Backend) (v : vector) : Prop :=
  rocca_seal B (some (List.replicate 80 0)) 80 (some v.key) 32 (some v.nonce) 16
      (some v.plaintext) 64 (some v.additional_data) v.additional_data_len
    = (true, some v.ciphertext) ∧
  rocca_open B (some (List.replicate 64 0)) 64 (some v.key) 32 (some v.nonce) 16
      (some v.ciphertext) 80 (some v.additional_data) v.additional_data_len
    = (true, some v.plaintext)

/-- Deciding `test_vector_ok` by running both calls. -/
instance test_vector_ok_decidable (B : Backend) (v : vector) : Decidable (test_vector_ok B v) :=
  inferInstanceAs (Decidable (_ ∧ _))

/-- The array `ciphertext` of `test_zero` in `test.c`: the tag of the empty message. -/
def test_zero_ciphertext : List Byte :=
  [0x2e, 0xe3, 0x7e, 0x01, 0x41, 0x57, 0xfa, 0x6a, 0x24, 0xc8, 0x0f, 0x13, 0x99, 0x6c, 0x77, 0xbb]

/-- The all-zero key of `test_zero`. -/
def zero_key : List Byte := List.replicate 32 0

/-- The all-zero nonce of `test_zero`. -/
def zero_nonce : List Byte := List.replicate 16 0

/-- A 33-byte plaintext `00 01 .. 20`: one full block and one trailing byte. -/
def pt33 : List Byte := [
    0x00, 0x01, 0x02, 0x03, 0x04, 0x05, 0x06, 0x07, 0x08, 0x09, 0x0a, 0x0b, 0x0c, 0x0d, 0x0e, 0x0f,
    0x10, 0x11, 0x12, 0x13, 0x14, 0x15, 0x16, 0x17, 0x18, 0x19, 0x1a, 0x1b, 0x1c, 0x1d, 0x1e, 0x1f,
    0x20]

/-- What `rocca_seal` leaves in a zeroed 49-byte buffer for `pt33` under the all-zero key and
nonce without associated data. -/
def ct33 : List Byte := [
    0x15, 0x14, 0x7a, 0x76, 0x90, 0x45, 0xe0, 0x92, 0x60, 0xf5, 0xe6, 0xa2, 0xbc, 0x8f, 0x21, 0x9e,
    0x5f, 0x4a, 0x4b, 0xde, 0x14, 0x7d, 0x9b, 0x21, 0x03, 0x93, 0x91, 0x79, 0x7a, 0x6e, 0xe1, 0xdf,
    0x00, 0x34, 0x54, 0x05, 0x3f, 0x3b, 0xae, 0x98, 0x9c, 0x8b, 0xa6, 0x7c, 0xe8, 0xf8, 0x67, 0xf5,
    0x6c]

/-- The tag of `test_zero` with the lowest bit of its first byte flipped (`2e` to `2f`). -/
def forged_tag : List Byte :=
  [0x2f, 0xe3, 0x7e, 0x01, 0x41, 0x57, 0xfa, 0x6a, 0x24, 0xc8, 0x0f, 0x13, 0x99, 0x6c, 0x77, 0xbb]

/-- A 49-byte ciphertext that `rocca_open` accepts under the all-zero key and nonce without
associated data: a 33-byte all-zero body and the tag `rocca_open` computes for it. -/
def accepted49 : List Byte :=
  List.replicate 33 0 ++
    [0xb6, 0x7a, 0x85, 0x65, 0xc0, 0xb1, 0x01, 0x73, 0x36, 0xd8, 0xe8, 0xdd, 0x3b, 0x0d, 0x9d, 0x7b]

/-- The ciphertext `accepted49` with the lowest bit of body byte 32 flipped. -/
def tampered49 : List Byte :=
  List.replicate 32 0 ++ [0x01] ++
    [0xb6, 0x7a, 0x85, 0x65, 0xc0, 0xb1, 0x01, 0x73, 0x36, 0xd8, 0xe8, 0xdd, 0x3b, 0x0d, 0x9d, 0x7b]

/-- What `rocca_open` leaves in a 33-byte buffer for `accepted49` and for `tampered49`. -/
def opened49 : List Byte := [
    0x4f, 0x15, 0x78, 0x75, 0x94, 0x40, 0xe6, 0x95, 0x68, 0xfc, 0xec, 0xa9, 0xb0, 0x82, 0x2f, 0x91,
    0x4f, 0x5b, 0x59, 0xcd, 0x00, 0x68, 0x8d, 0x36, 0x1b, 0x8a, 0x8b, 0x62, 0x66, 0x73, 0xff, 0xc0,
    0x15]

/-- The tag `rocca_seal` appends for an empty plaintext under the all-zero key and nonce with
33 bytes of associated data, whether the last of them is `00` or `01`. -/
def ad33_tag : List Byte :=
  [0xc6, 0x8f, 0x6e, 0xe2, 0x29, 0xd8, 0x96, 0x05, 0x28, 0xc8, 0x81, 0x3d, 0xe2, 0xf0, 0x20, 0x8d]

/-- What `rocca_seal` leaves for 33 zero bytes of plaintext under the all-zero key and nonce,
up to the byte at index 32, which keeps the value `b` it had before the call. -/
def stale33 (b : Byte) : List Byte := [
    0x15, 0x15, 0x78, 0x75, 0x94, 0x40, 0xe6, 0x95, 0x68, 0xfc, 0xec, 0xa9, 0xb0, 0x82, 0x2f, 0x91,
    0x4f, 0x5b, 0x59, 0xcd, 0x00, 0x68, 0x8d, 0x36, 0x1b, 0x8a, 0x8b, 0x62, 0x66, 0x73, 0xff, 0xc0,
    b, 0x28, 0x6c, 0x24, 0xc3, 0xe3, 0x9b, 0x87, 0xbc, 0xf8, 0xd4, 0xe7, 0xe0, 0x6b, 0xf4, 0xa5,
    0x4c]
/-- The associated-data absorption as spec section 4.4 and claim C17 word it, a second
definition to compare `absorb_ad` with: `rocca_update` over the consecutive 32-byte blocks,
then the trailing `L % 32` bytes `additional_data[L - L % 32 .. L)`, zero-padded to 32 bytes;
nothing for `L = 0`. -/
def absorb_ad_spec (B : Backend) (s : rocca_state) (additional_data : List Byte) (L : Nat) :
    rocca_state :=
  let s := forLoop (L / 32) (fun i s =>
    rocca_update B s (load_u128 additional_data (32 * i)) (load_u128 additional_data (32 * i + 16))) s
  let r := L % 32
  if r = 0 then s
  else
    let block := (additional_data.drop (L - r)).take r ++ List.replicate (32 - r) 0
    rocca_update B s (load_u128 block 0) (load_u128 block 16)

/-- What `rocca_seal` leaves in a zeroed 80-byte buffer for the input of spec vector 3 as the
spec words it (key, nonce, associated data and a 32-byte plaintext of `01` bytes): 48 bytes
of output, the other 32 bytes untouched. -/
def spec_vector_3_output : List Byte := [
    0xf8, 0x30, 0xa9, 0x72, 0x0a, 0x2f, 0x8b, 0x3b, 0xf2, 0x40, 0xc9, 0x3b, 0x28, 0xc2, 0x04, 0x24,
    0x33, 0x5d, 0x16, 0x02, 0x27, 0xc3, 0x9c, 0x90, 0xb3, 0x4c, 0x70, 0x4e, 0xed, 0xf2, 0x84, 0xfc,
    0x6d, 0x44, 0x02, 0x15, 0xa2, 0x4d, 0xf5, 0x6f, 0x80, 0xf6, 0x0c, 0x59, 0x1f, 0x3b, 0xf0, 0x5f,
    0x00, 0x00, 0x00, 0x00, 0x00, 0x00, 0x00, 0x00, 0x00, 0x00, 0x00, 0x00, 0x00, 0x00, 0x00, 0x00,
    0x00, 0x00, 0x00, 0x00, 0x00, 0x00, 0x00, 0x00, 0x00, 0x00, 0x00, 0x00, 0x00, 0x00, 0x00, 0x00]

/-- The `rocca_enc` output of the first block of `pt33` under the all-zero key and nonce
without associated data. -/
def pt33_block0 : List Byte := [
    0x4f, 0x14, 0x7a, 0x76, 0x90, 0x45, 0xe0, 0x92, 0x60, 0xf5, 0xe6, 0xa2, 0xbc, 0x8f, 0x21, 0x9e,
    0x5f, 0x4a, 0x4b, 0xde, 0x14, 0x7d, 0x9b, 0x21, 0x03, 0x93, 0x91, 0x79, 0x7a, 0x6e, 0xe1, 0xdf]

/-- The state of `rocca_seal` and `rocca_open` in front of the message phase for the all-zero
key and nonce without associated data. -/
def zero_start (B : Backend) : rocca_state :=
  (absorb_ad B (rocca_init B zero_key zero_nonce) (List.replicate 32 0) [] 0).1

set_option maxRecDepth 100000

/-- C1 (code defect): the round trip fails on a 33-byte plaintext.  `rocca_seal` returns true
and leaves `ct33`, whose byte 0 was overwritten by the partial-block step and whose byte 32
was never written; `rocca_open` of `ct33` with the same key, nonce and (empty) associated
data returns false and leaves the destination zeroed instead of returning the plaintext. -/
theorem roundtrip_fails_on_33_bytes :
    rocca_seal amd64 (some (List.replicate 49 0)) 49 (some zero_key) 32 (some zero_nonce) 16
        (some pt33) 33 none 0 = (true, some ct33) ∧
    rocca_open amd64 (some (List.replicate 33 0)) 33 (some zero_key) 32 (some zero_nonce) 16
        (some ct33) 49 none 0 = (false, some (List.replicate 33 0)) := by
  decide!

/-- C2: on both backends each of the four vectors of `test_vectors` passes: `rocca_seal`
returns true and writes exactly the listed 80 bytes, and `rocca_open` of these 80 bytes
returns true (and leaves the 64-byte plaintext). -/
theorem test_vectors_pass :
    (test_vector_ok amd64 vector_1 ∧ test_vector_ok amd64 vector_2 ∧
      test_vector_ok amd64 vector_3 ∧ test_vector_ok amd64 vector_4) ∧
    (test_vector_ok arm64 vector_1 ∧ test_vector_ok arm64 vector_2 ∧
      test_vector_ok arm64 vector_3 ∧ test_vector_ok arm64 vector_4) := by
  decide!

/-- C3: the empty-message vector of `test_zero`.  With the all-zero key and nonce and `NULL`
plaintext and associated data `rocca_seal` returns true and writes the sixteen bytes
`2e e3 7e 01 41 57 fa 6a 24 c8 0f 13 99 6c 77 bb`, and `rocca_open` of these bytes returns
true, on both backends. -/
theorem test_zero_passes :
    (rocca_seal amd64 (some (List.replicate 16 0)) 16 (some zero_key) 32 (some zero_nonce) 16
        none 0 none 0 = (true, some test_zero_ciphertext) ∧
      (rocca_open amd64 (some test_zero_ciphertext) 16 (some zero_key) 32 (some zero_nonce) 16
        (some test_zero_ciphertext) 16 none 0).1 = true) ∧
    (rocca_seal arm64 (some (List.replicate 16 0)) 16 (some zero_key) 32 (some zero_nonce) 16
        none 0 none 0 = (true, some test_zero_ciphertext) ∧
      (rocca_open arm64 (some test_zero_ciphertext) 16 (some zero_key) 32 (some zero_nonce) 16
        (some test_zero_ciphertext) 16 none 0).1 = true) := by
  decide!

/-- C4 (code defect): with the comparator of `rocca_arm64.h`, `rocca_open` accepts a tag that
differs from the recomputed one.  The tag of the empty message under the all-zero key and
nonce is `test_zero_ciphertext`; `rocca_open` returns true for it and also for `forged_tag`,
which differs from it in one bit.  With the comparator of `rocca_amd64.h` the forged tag is
rejected. -/
theorem arm64_open_accepts_forged_tag :
    forged_tag ≠ test_zero_ciphertext ∧
    (rocca_open arm64 (some (List.replicate 16 0)) 16 (some zero_key) 32 (some zero_nonce) 16
        (some test_zero_ciphertext) 16 none 0).1 = true ∧
    (rocca_open arm64 (some (List.replicate 16 0)) 16 (some zero_key) 32 (some zero_nonce) 16
        (some forged_tag) 16 none 0).1 = true ∧
    (rocca_open amd64 (some (List.replicate 16 0)) 16 (some zero_key) 32 (some zero_nonce) 16
        (some forged_tag) 16 none 0).1 = false := by
  decide!

/-- C5 (code defect): a flipped bit in the ciphertext body goes unnoticed.  `rocca_open`
accepts `accepted49`, and it accepts `tampered49`, which differs from it in the lowest bit of
body byte 32, leaving the same 33 bytes in the destination. -/
theorem open_accepts_tampered_body :
    rocca_open amd64 (some (List.replicate 33 0)) 33 (some zero_key) 32 (some zero_nonce) 16
        (some accepted49) 49 none 0 = (true, some opened49) ∧
    rocca_open amd64 (some (List.replicate 33 0)) 33 (some zero_key) 32 (some zero_nonce) 16
        (some tampered49) 49 none 0 = (true, some opened49) := by
  decide!

/-- C6 (code defect): two associated-data strings of 33 bytes that differ in their last byte
(`00` against `01`) get the same tag from `rocca_seal`, and `rocca_open` under the second
accepts what was sealed under the first. -/
theorem seal_same_tag_for_different_ad :
    rocca_seal amd64 (some (List.replicate 16 0)) 16 (some zero_key) 32 (some zero_nonce) 16
        none 0 (some (List.replicate 33 0)) 33 = (true, some ad33_tag) ∧
    rocca_seal amd64 (some (List.replicate 16 0)) 16 (some zero_key) 32 (some zero_nonce) 16
        none 0 (some (List.replicate 32 0 ++ [0x01])) 33 = (true, some ad33_tag) ∧
    (rocca_open amd64 (some (List.replicate 16 0)) 16 (some zero_key) 32 (some zero_nonce) 16
        (some ad33_tag) 16 (some (List.replicate 32 0 ++ [0x01])) 33).1 = true := by
  decide!

/-- C7 (code defect): the ciphertext depends on what the destination held before the call.
For 33 zero bytes of plaintext `rocca_seal` leaves byte 32 of the destination as it was, so
a zeroed buffer and a buffer of `ff` bytes end with different 49-byte ciphertexts. -/
theorem seal_output_depends_on_dst :
    rocca_seal amd64 (some (List.replicate 49 0)) 49 (some zero_key) 32 (some zero_nonce) 16
        (some (List.replicate 33 0)) 33 none 0 = (true, some (stale33 0x00)) ∧
    rocca_seal amd64 (some (List.replicate 49 0xff)) 49 (some zero_key) 32 (some zero_nonce) 16
        (some (List.replicate 33 0)) 33 none 0 = (true, some (stale33 0xff)) ∧
    stale33 0x00 ≠ stale33 0xff := by
  decide!

/-- Zero-filling the first `n` bytes of a buffer that has at least `n` bytes. -/
theorem memset_s_eq (d : List Byte) (smax n : Nat) (h : n ≤ d.length) :
    memset_s d smax 0 n = List.replicate n 0 ++ d.drop n := by
  simp [memset_s, write, List.take_replicate, Nat.min_eq_left h, h]

/-- C8: `rocca_seal` returns true exactly when `dst` is not `NULL`, `plaintext_len + 16` does
not overflow `size_t`, `key` is not `NULL` with `key_len = 32`, `nonce` is not `NULL` with
`nonce_len = 16`, `plaintext` is `NULL` exactly when `plaintext_len = 0`, and
`additional_data` is `NULL` exactly when `additional_data_len = 0`.  The returned value never
depends on `dst_len`, and neither does the destination when the call succeeds. -/
theorem rocca_seal_returns_true_iff (B : Backend) (dst : Option (List Byte))
    (dst_len dst_len' : Nat) (key : Option (List Byte)) (key_len : Nat)
    (nonce : Option (List Byte)) (nonce_len : Nat) (plaintext : Option (List Byte))
    (plaintext_len : Nat) (additional_data : Option (List Byte)) (additional_data_len : Nat) :
    ((rocca_seal B dst dst_len key key_len nonce nonce_len plaintext plaintext_len
        additional_data additional_data_len).1 = true ↔
      dst ≠ none ∧ plaintext_len ≤ SIZE_MAX - 16 ∧ (key ≠ none ∧ key_len = 32) ∧
        (nonce ≠ none ∧ nonce_len = 16) ∧ (plaintext = none ↔ plaintext_len = 0) ∧
        (additional_data = none ↔ additional_data_len = 0)) ∧
    (rocca_seal B dst dst_len' key key_len nonce nonce_len plaintext plaintext_len
        additional_data additional_data_len).1 =
      (rocca_seal B dst dst_len key key_len nonce nonce_len plaintext plaintext_len
        additional_data additional_data_len).1 ∧
    ((rocca_seal B dst dst_len key key_len nonce nonce_len plaintext plaintext_len
        additional_data additional_data_len).1 = true →
      rocca_seal B dst dst_len' key key_len nonce nonce_len plaintext plaintext_len
          additional_data additional_data_len =
        rocca_seal B dst dst_len key key_len nonce nonce_len plaintext plaintext_len
          additional_data additional_data_len) := by
  cases dst with
  | none => simp [rocca_seal]
  | some d =>
    simp only [rocca_seal]
    have hov : (SIZE_MAX - plaintext_len < ROCCA_OVERHEAD) ↔ ¬ plaintext_len ≤ SIZE_MAX - 16 := by
      simp only [SIZE_MAX, ROCCA_OVERHEAD, ROCCA_TAG_SIZE]
      omega
    split_ifs with h1 h2 h3 h4
    · have h1' := hov.1 (by simpa using h1)
      simp [h1']
    · have h2' : ¬ (key ≠ none ∧ key_len = 32) := by
        simp only [Bool.or_eq_true, Option.isNone_iff_eq_none, bne_iff_ne, ROCCA_KEY_SIZE] at h2
        tauto
      simp [h2']
    · have h3' : ¬ (nonce ≠ none ∧ nonce_len = 16) := by
        simp only [Bool.or_eq_true, Option.isNone_iff_eq_none, bne_iff_ne, ROCCA_NONCE_SIZE] at h3
        tauto
      simp [h3']
    · have h4' : ¬ ((plaintext = none ↔ plaintext_len = 0) ∧
          (additional_data = none ↔ additional_data_len = 0)) := by
        simp only [Bool.or_eq_true, bne_iff_ne, ne_eq, Option.isNone_iff_eq_none] at h4
        rcases h4 with h4 | h4
        · intro hh
          apply h4
          cases plaintext <;> simp_all
        · intro hh
          apply h4
          cases additional_data <;> simp_all
      simp only [Bool.false_eq_true, false_iff, not_and, ne_eq, reduceCtorEq, not_false_eq_true,
        true_and, IsEmpty.forall_iff, and_true, true_implies, implies_true]
      tauto
    · have h1' : plaintext_len ≤ SIZE_MAX - 16 := by
        by_contra hc
        exact h1 (by simpa using hov.2 hc)
      simp only [Bool.or_eq_true, Option.isNone_iff_eq_none, bne_iff_ne, ROCCA_KEY_SIZE,
        ROCCA_NONCE_SIZE, ne_eq, not_or, not_not] at h2 h3 h4
      refine ⟨?_, rfl, fun _ => rfl⟩
      simp only [true_iff, ne_eq, reduceCtorEq, not_false_eq_true, true_and]
      refine ⟨h1', h2, h3, ?_, ?_⟩
      · cases plaintext <;> simp_all
      · cases additional_data <;> simp_all


/-- The arguments of `test_zero` pass the validation of `rocca_seal`. -/
theorem rocca_seal_returns_true_iff_witness :
    (rocca_seal amd64 (some (List.replicate 16 0)) 16 (some zero_key) 32 (some zero_nonce) 16
      none 0 none 0).1 = true :=
  (rocca_seal_returns_true_iff amd64 (some (List.replicate 16 0)) 16 16 (some zero_key) 32
    (some zero_nonce) 16 none 0 none 0).1.2
      ⟨by simp, by decide, ⟨by simp, rfl⟩, ⟨by simp, rfl⟩, by simp, by simp⟩

/-- C9: with `dst = NULL`, `rocca_seal` returns false and there is nothing it could write;
with a destination of at least `dst_len` bytes, whenever it returns false the first `dst_len`
bytes of the destination are zero (and the bytes behind them are untouched). -/
theorem rocca_seal_zero_on_failure (B : Backend) (dst_len : Nat) (key : Option (List Byte))
    (key_len : Nat) (nonce : Option (List Byte)) (nonce_len : Nat)
    (plaintext : Option (List Byte)) (plaintext_len : Nat)
    (additional_data : Option (List Byte)) (additional_data_len : Nat) :
    rocca_seal B none dst_len key key_len nonce nonce_len plaintext plaintext_len
        additional_data additional_data_len = (false, none) ∧
    ∀ d : List Byte, dst_len ≤ d.length →
      (rocca_seal B (some d) dst_len key key_len nonce nonce_len plaintext plaintext_len
        additional_data additional_data_len).1 = false →
      (rocca_seal B (some d) dst_len key key_len nonce nonce_len plaintext plaintext_len
        additional_data additional_data_len).2 = some (List.replicate dst_len 0 ++ d.drop dst_len) := by
  refine ⟨rfl, fun d hd => ?_⟩
  simp only [rocca_seal]
  split_ifs <;> simp [memset_s_eq d dst_len dst_len hd]

/-- A 31-byte key makes `rocca_seal` fail and zero the four declared bytes of a five-byte
destination. -/
theorem rocca_seal_zero_on_failure_witness :
    (rocca_seal amd64 (some [1, 2, 3, 4, 5]) 4 (some zero_key) 31 (some zero_nonce) 16
      none 0 none 0).2 = some [0, 0, 0, 0, 5] :=
  (rocca_seal_zero_on_failure amd64 4 (some zero_key) 31 (some zero_nonce) 16 none 0 none 0).2
    [1, 2, 3, 4, 5] (by decide) (by decide)

/-- C10: `rocca_open` returns false whenever `dst` is `NULL`, `ciphertext` is `NULL`,
`ciphertext_len < 16`, `key` is `NULL` or `key_len ≠ 32`, `nonce` is `NULL` or `nonce_len ≠ 16`,
or `additional_data` is `NULL` with a length other than zero or not `NULL` with length zero.
If none of these holds, the returned value is the value of `constant_time_compare_u128` on
the tag read at `ciphertext + ciphertext_len - 16` and the tag `rocca_mac` computes from the
state behind the associated-data and decryption phases. -/
theorem rocca_open_validation (B : Backend) (dst : Option (List Byte)) (dst_len : Nat)
    (key : Option (List Byte)) (key_len : Nat) (nonce : Option (List Byte)) (nonce_len : Nat)
    (ciphertext : Option (List Byte)) (ciphertext_len : Nat)
    (additional_data : Option (List Byte)) (additional_data_len : Nat) :
    ((dst = none ∨ ciphertext = none ∨ ciphertext_len < 16 ∨ key = none ∨ key_len ≠ 32 ∨
        nonce = none ∨ nonce_len ≠ 16 ∨ (additional_data = none ∧ additional_data_len ≠ 0) ∨
        (additional_data ≠ none ∧ additional_data_len = 0)) →
      (rocca_open B dst dst_len key key_len nonce nonce_len ciphertext ciphertext_len
        additional_data additional_data_len).1 = false) ∧
    (∀ d k n c : List Byte, dst = some d → key = some k → nonce = some n → ciphertext = some c →
      key_len = 32 → nonce_len = 16 → 16 ≤ ciphertext_len →
      (additional_data = none ↔ additional_data_len = 0) →
      (rocca_open B dst dst_len key key_len nonce nonce_len ciphertext ciphertext_len
        additional_data additional_data_len).1 =
        B.constant_time_compare_u128 (load_u128 c (ciphertext_len - 16))
          (rocca_mac B
            (decrypt_ct B
              (absorb_ad B (rocca_init B k n) (List.replicate 32 0) (additional_data.getD [])
                additional_data_len).1
              (absorb_ad B (rocca_init B k n) (List.replicate 32 0) (additional_data.getD [])
                additional_data_len).2
              d c (ciphertext_len - 16)).1
            additional_data_len (ciphertext_len - 16))) := by
  constructor
  · intro h
    cases dst with
    | none => rfl
    | some d =>
      simp only [rocca_open]
      split_ifs with h1 h2 h3 h4 h5
      · rfl
      · rfl
      · rfl
      · rfl
      · rfl
      · exfalso
        simp only [Bool.or_eq_true, Option.isNone_iff_eq_none, bne_iff_ne, ROCCA_KEY_SIZE,
          ROCCA_NONCE_SIZE, ROCCA_OVERHEAD, ROCCA_TAG_SIZE, ne_eq, not_or, not_not,
          decide_eq_true_eq, not_lt] at h1 h2 h3 h4
        have h4' : additional_data = none ↔ additional_data_len = 0 := by
          cases additional_data <;> simp_all
        rcases h with h | h | h | h | h | h | h | h | h
        · simp at h
        · exact h1.1 h
        · omega
        · exact h2.1 h
        · exact h h2.2
        · exact h3.1 h
        · exact h h3.2
        · exact h.2 (h4'.1 h.1)
        · exact h.1 (h4'.2 h.2)
  · intro d k n c hd hk hn hc hkl hnl hcl had
    subst hd hk hn hc hkl hnl
    have h4 : (additional_data.isNone != (additional_data_len == 0)) = false := by
      cases additional_data <;> simp_all
    have h1 : ¬ ciphertext_len < ROCCA_OVERHEAD := by
      simp only [ROCCA_OVERHEAD, ROCCA_TAG_SIZE]; omega
    simp only [rocca_open, Option.isNone_some, Bool.false_or, h4, decide_eq_true_eq, h1,
      ROCCA_KEY_SIZE, ROCCA_NONCE_SIZE, ROCCA_TAG_SIZE, ROCCA_BLOCK_SIZE, bne_self_eq_false,
      Bool.false_eq_true, if_false, Option.getD_some]
    split_ifs with h5
    · simp only [Bool.not_eq_true'] at h5
      exact h5.symm
    · simp only [Bool.not_eq_true', Bool.not_eq_false] at h5
      exact h5.symm

/-- A ciphertext length of 15 makes `rocca_open` return false. -/
theorem rocca_open_validation_witness :
    (rocca_open amd64 (some (List.replicate 16 0)) 16 (some zero_key) 32 (some zero_nonce) 16
      (some test_zero_ciphertext) 15 none 0).1 = false :=
  (rocca_open_validation amd64 (some (List.replicate 16 0)) 16 (some zero_key) 32
    (some zero_nonce) 16 (some test_zero_ciphertext) 15 none 0).1
      (Or.inr (Or.inr (Or.inl (by decide))))


/-- Writing keeps the length of the destination. -/
theorem length_write (d : List Byte) (off : Nat) (s : List Byte) :
    (write d off s).length = d.length := by
  simp only [write, List.length_append, List.length_take, List.length_drop]
  omega

/-- The bytes of a buffer behind a write: inside the written range the source bytes, elsewhere the old ones. -/
theorem getElem?_write (d : List Byte) (off : Nat) (s : List Byte) (j : Nat) :
    (write d off s)[j]? =
      if off ≤ j ∧ j < off + s.length ∧ j < d.length then s[j - off]? else d[j]? := by
  unfold write
  by_cases h1 : j < off
  · have h2 : j < d.length ∨ d.length ≤ j := Nat.lt_or_ge _ _
    rw [if_neg (by omega), List.append_assoc]
    rcases h2 with h2 | h2
    · rw [List.getElem?_append_left (by simp; omega), List.getElem?_take_of_lt h1]
    · rw [List.getElem?_eq_none (by simp; omega), List.getElem?_eq_none h2]
  · by_cases h3 : j < d.length
    · by_cases h4 : j < off + s.length
      · rw [if_pos ⟨by omega, h4, h3⟩, List.append_assoc,
          List.getElem?_append_right (by simp; omega),
          List.getElem?_append_left (by simp; omega)]
        simp only [List.length_take]
        rw [Nat.min_eq_left (by omega), List.getElem?_take_of_lt (by omega)]
      · rw [if_neg (by omega), List.getElem?_append_right (by simp; omega)]
        simp only [List.length_append, List.length_take, List.getElem?_drop]
        congr 1
        omega
    · rw [if_neg (by omega), List.getElem?_eq_none (by simp; omega),
        List.getElem?_eq_none (by omega)]

/-- The lemma `getElem?_write` for reads with default zero. -/
theorem getD_write (d : List Byte) (off : Nat) (s : List Byte) (j : Nat) :
    (write d off s).getD j 0 =
      if off ≤ j ∧ j < off + s.length ∧ j < d.length then s.getD (j - off) 0 else d.getD j 0 := by
  simp only [List.getD_eq_getElem?_getD, getElem?_write]
  split_ifs <;> rfl


/-- Byte `i` of a packed number is the byte that was packed at `i`. -/
theorem byteAt_pack16 (f : Nat → Nat) (hf : ∀ j, f j < 256) (i : Nat) (hi : i < 16) :
    byteAt (pack16 f % 2 ^ 128) i = f i := by
  have h0 := hf 0; have h1 := hf 1; have h2 := hf 2; have h3 := hf 3
  have h4 := hf 4; have h5 := hf 5; have h6 := hf 6; have h7 := hf 7
  have h8 := hf 8; have h9 := hf 9; have h10 := hf 10; have h11 := hf 11
  have h12 := hf 12; have h13 := hf 13; have h14 := hf 14; have h15 := hf 15
  unfold byteAt pack16
  rw [Nat.shiftRight_eq_div_pow]
  interval_cases i <;> simp only [Nat.reduceMul, Nat.reducePow] <;> omega

/-- A number below `2 ^ 128` is the pack of its sixteen bytes. -/
theorem pack16_byteAt (x : Nat) (hx : x < 2 ^ 128) : pack16 (fun i => byteAt x i) = x := by
  unfold pack16 byteAt
  simp only [Nat.shiftRight_eq_div_pow, Nat.reduceMul, Nat.reducePow] at *
  omega

/-- The bytes of an xor are the xors of the bytes. -/
theorem byteAt_xor (a b i : Nat) : byteAt (a ^^^ b) i = byteAt a i ^^^ byteAt b i := by
  unfold byteAt
  apply Nat.eq_of_testBit_eq
  intro j
  have h256 : (256 : Nat) = 2 ^ 8 := by norm_num
  simp only [h256, Nat.testBit_mod_two_pow, Nat.testBit_shiftRight, Nat.testBit_xor]
  by_cases h : j < 8 <;> simp [h]

/-- Byte `i` of `U128.ofFn f` is `f i`. -/
theorem byte_ofFn (f : Nat → Byte) (i : Nat) (hi : i < 16) : (U128.ofFn f).byte i = f i := by
  apply Fin.ext
  simp only [U128.byte, U128.ofFn, U128.ofNat]
  exact byteAt_pack16 (fun i => (f i).val) (fun j => (f j).isLt) i hi

/-- Byte `i` of a loaded register is the byte at `off + i` of the buffer. -/
theorem byte_load (l : List Byte) (off i : Nat) (hi : i < 16) :
    (load_u128 l off).byte i = l.getD (off + i) 0 := by
  simp only [load_u128]
  exact byte_ofFn _ i hi

/-- Byte `i` of `xor_u128 a b` is the xor of the bytes `i` of `a` and `b`. -/
theorem byte_xor (a b : U128) (i : Nat) :
    (xor_u128 a b).byte i = (a.byte i) ^^^ (b.byte i) := by
  apply Fin.ext
  have h : ((a.byte i) ^^^ (b.byte i)).val = ((a.byte i).val ^^^ (b.byte i).val) % 256 := rfl
  rw [h]
  simp only [U128.byte, xor_u128, byteAt_xor]
  rw [Nat.mod_eq_of_lt]
  exact Nat.xor_lt_two_pow (n := 8) (Nat.mod_lt _ (by decide)) (Nat.mod_lt _ (by decide))

/-- Xor with the same byte twice gives the byte back. -/
theorem byte_xor_cancel (a b : Byte) : a ^^^ (a ^^^ b) = b := by
  apply Fin.ext
  have h1 : (a ^^^ (a ^^^ b)).val = (a.val ^^^ (a ^^^ b).val) % 256 := rfl
  have h2 : (a ^^^ b).val = (a.val ^^^ b.val) % 256 := rfl
  have h3 : a.val ^^^ b.val < 256 := Nat.xor_lt_two_pow (n := 8) a.isLt b.isLt
  rw [h1, h2, Nat.mod_eq_of_lt h3, ← Nat.xor_assoc, Nat.xor_self, Nat.zero_xor,
    Nat.mod_eq_of_lt b.isLt]

/-- Two registers with the same sixteen bytes are equal. -/
theorem U128.ext_bytes (a b : U128) (h : ∀ i, i < 16 → a.byte i = b.byte i) : a = b := by
  have hv : a.val = b.val := by
    rw [← pack16_byteAt a.val a.isLt, ← pack16_byteAt b.val b.isLt]
    have e : ∀ i, i < 16 → byteAt a.val i = byteAt b.val i := fun i hi =>
      congrArg Fin.val (h i hi)
    unfold pack16
    simp only [e 0 (by decide), e 1 (by decide), e 2 (by decide), e 3 (by decide),
      e 4 (by decide), e 5 (by decide), e 6 (by decide), e 7 (by decide), e 8 (by decide),
      e 9 (by decide), e 10 (by decide), e 11 (by decide), e 12 (by decide),
      e 13 (by decide), e 14 (by decide), e 15 (by decide)]
  cases a; cases b; simp only [U128.mk.injEq]; exact hv

/-- Loads from buffers that agree on the sixteen bytes read are equal. -/
theorem load_congr (l l2 : List Byte) (off off2 : Nat)
    (h : ∀ i, i < 16 → l.getD (off + i) 0 = l2.getD (off2 + i) 0) :
    load_u128 l off = load_u128 l2 off2 := by
  apply U128.ext_bytes
  intro i hi
  rw [byte_load _ _ _ hi, byte_load _ _ _ hi, h i hi]

/-- A register has sixteen bytes. -/
theorem length_toBytes (x : U128) : x.toBytes.length = 16 := by
  simp [U128.toBytes]

/-- The `i`-th of the sixteen bytes of a register is its byte `i`. -/
theorem getD_toBytes (x : U128) (i : Nat) (hi : i < 16) : x.toBytes.getD i 0 = x.byte i := by
  simp [U128.toBytes, List.getD_eq_getElem?_getD, List.getElem?_map, List.getElem?_range hi]

/-- The bytes of a buffer behind `store_u128`. -/
theorem getD_store (d : List Byte) (off : Nat) (x : U128) (j : Nat) :
    (store_u128 d off x).getD j 0 =
      if off ≤ j ∧ j < off + 16 ∧ j < d.length then x.byte (j - off) else d.getD j 0 := by
  simp only [store_u128, getD_write, length_toBytes]
  split_ifs with h
  · exact getD_toBytes x _ (by omega)
  · rfl

/-- Storing a register keeps the length of the buffer. -/
theorem length_store (d : List Byte) (off : Nat) (x : U128) :
    (store_u128 d off x).length = d.length := length_write _ _ _


/-- Bit `i` of the mask of a byte-wise comparison tells whether the bytes `i` are equal. -/
theorem movemask_cmpeq_bit (a b : U128) (i : Nat) (hi : i < 16) :
    byteAt (_mm_cmpeq_epi8 a b).val i / 128 = if a.byte i = b.byte i then 1 else 0 := by
  have h : (_mm_cmpeq_epi8 a b).byte i = if a.byte i = b.byte i then (0xff : Byte) else 0 :=
    byte_ofFn _ i hi
  show ((_mm_cmpeq_epi8 a b).byte i).val / 128 = _
  rw [h]
  split_ifs <;> rfl

/-- A sum of sixteen weighted bits is `0xffff` exactly when every bit is set. -/
theorem mask_full_iff (e : Nat → Nat) (he : ∀ i, e i ≤ 1) :
    (0 + 2 ^ 0 * e 0 + 2 ^ 1 * e 1 + 2 ^ 2 * e 2 + 2 ^ 3 * e 3 + 2 ^ 4 * e 4 + 2 ^ 5 * e 5
      + 2 ^ 6 * e 6 + 2 ^ 7 * e 7 + 2 ^ 8 * e 8 + 2 ^ 9 * e 9 + 2 ^ 10 * e 10 + 2 ^ 11 * e 11
      + 2 ^ 12 * e 12 + 2 ^ 13 * e 13 + 2 ^ 14 * e 14 + 2 ^ 15 * e 15 = 0xffff) ↔
      ∀ i, i < 16 → e i = 1 := by
  have h0 := he 0; have h1 := he 1; have h2 := he 2; have h3 := he 3
  have h4 := he 4; have h5 := he 5; have h6 := he 6; have h7 := he 7
  have h8 := he 8; have h9 := he 9; have h10 := he 10; have h11 := he 11
  have h12 := he 12; have h13 := he 13; have h14 := he 14; have h15 := he 15
  constructor
  · intro h i hi
    interval_cases i <;> omega
  · intro h
    have g0 := h 0 (by decide); have g1 := h 1 (by decide); have g2 := h 2 (by decide)
    have g3 := h 3 (by decide); have g4 := h 4 (by decide); have g5 := h 5 (by decide)
    have g6 := h 6 (by decide); have g7 := h 7 (by decide); have g8 := h 8 (by decide)
    have g9 := h 9 (by decide); have g10 := h 10 (by decide); have g11 := h 11 (by decide)
    have g12 := h 12 (by decide); have g13 := h 13 (by decide); have g14 := h 14 (by decide)
    have g15 := h 15 (by decide)
    omega

/-- C19: the comparator of `rocca_amd64.h` returns true exactly when its two arguments
agree in all sixteen bytes, that is, exactly when they are equal. -/
theorem amd64_compare_iff_bytes (a b : U128) :
    (Amd64.constant_time_compare_u128 a b = true ↔ ∀ i, i < 16 → a.byte i = b.byte i) ∧
    (Amd64.constant_time_compare_u128 a b = true ↔ a = b) := by
  have hr : List.range 16 = [0, 1, 2, 3, 4, 5, 6, 7, 8, 9, 10, 11, 12, 13, 14, 15] := by decide
  have he : ∀ i, byteAt (_mm_cmpeq_epi8 a b).val i / 128 ≤ 1 := by
    intro i
    have : byteAt (_mm_cmpeq_epi8 a b).val i < 256 := Nat.mod_lt _ (by decide)
    omega
  have key : Amd64.constant_time_compare_u128 a b = true ↔ ∀ i, i < 16 → a.byte i = b.byte i := by
    simp only [Amd64.constant_time_compare_u128, _mm_movemask_epi8, hr, List.foldl_cons,
      List.foldl_nil, beq_iff_eq]
    rw [mask_full_iff (fun i => byteAt (_mm_cmpeq_epi8 a b).val i / 128) he]
    constructor
    · intro h i hi
      have := h i hi
      rw [movemask_cmpeq_bit a b i hi] at this
      by_contra hc
      simp [hc] at this
    · intro h i hi
      rw [movemask_cmpeq_bit a b i hi, if_pos (h i hi)]
  refine ⟨key, key.trans ⟨U128.ext_bytes a b, fun h i _ => by rw [h]⟩⟩


/-- A loop of zero iterations returns its initial state. -/
theorem forLoop_zero {σ : Type} (body : Nat → σ → σ) (init : σ) : forLoop 0 body init = init := rfl

/-- The last iteration of a loop. -/
theorem forLoop_succ {σ : Type} (n : Nat) (body : Nat → σ → σ) (init : σ) :
    forLoop (n + 1) body init = body n (forLoop n body init) := by
  simp [forLoop, List.range_succ, List.foldl_append]

/-- A write that fits into the buffer splices the source in. -/
theorem write_eq_of_le (d : List Byte) (off : Nat) (s : List Byte)
    (h : off + s.length ≤ d.length) :
    write d off s = d.take off ++ s ++ d.drop (off + s.length) := by
  unfold write
  have e : s.take (d.length - off) = s := List.take_of_length_le (by omega)
  rw [e]

/-- A write at the end of a prefix `P` replaces the start of the rest. -/
theorem write_append_at (P R s : List Byte) (h : s.length ≤ R.length) :
    write (P ++ R) P.length s = P ++ s ++ R.drop s.length := by
  rw [write_eq_of_le _ _ _ (by simp; omega)]
  simp [List.take_append_eq_append_take, List.drop_append_eq_append_drop]

/-- A write does not change the buffer behind the written range. -/
theorem drop_write_of_le (d : List Byte) (off : Nat) (s : List Byte) (k : Nat)
    (h : off + s.length ≤ k) : (write d off s).drop k = d.drop k := by
  apply List.ext_getElem?
  intro i
  rw [List.getElem?_drop, List.getElem?_drop, getElem?_write, if_neg (by omega)]

/-- Storing a register at the end of a prefix `P`. -/
theorem store_append_at (P R : List Byte) (x : U128) (h : 16 ≤ R.length) (off : Nat)
    (hoff : off = P.length) :
    store_u128 (P ++ R) off x = P ++ x.toBytes ++ R.drop 16 := by
  subst hoff
  have := write_append_at P R x.toBytes (by rw [length_toBytes]; exact h)
  rw [length_toBytes] at this
  exact this


/-- Storing two registers back to back at the end of a prefix `P`. -/
theorem store2_append_at (P R : List Byte) (x y : U128) (h : 32 ≤ R.length) (off : Nat)
    (hoff : off = P.length) :
    store_u128 (store_u128 (P ++ R) off x) (off + 16) y
      = P ++ (x.toBytes ++ y.toBytes) ++ R.drop 32 := by
  rw [store_append_at P R x (by omega) off hoff]
  have h2 : off + 16 = (P ++ x.toBytes).length := by simp [length_toBytes, hoff]
  rw [store_append_at (P ++ x.toBytes) (R.drop 16) y (by simp; omega) (off + 16) h2]
  simp [List.append_assoc]

/-- The full-block loop of `rocca_open`: after `n` blocks the destination is `32 * n` bytes that do not depend on its old contents, followed by its old bytes from `32 * n` on. -/
theorem dec_loop_form (B : Backend) (ct : List Byte) (n : Nat) (s : rocca_state) :
    ∃ (s2 : rocca_state) (P : List Byte), P.length = 32 * n ∧
      ∀ d : List Byte, 32 * n ≤ d.length →
        forLoop n (fun i (st : rocca_state × List Byte) =>
          rocca_dec B st.1 st.2 (i * ROCCA_BLOCK_SIZE) ct (i * ROCCA_BLOCK_SIZE)) (s, d)
          = (s2, P ++ d.drop (32 * n)) := by
  induction n with
  | zero => exact ⟨s, [], rfl, fun d _ => by simp [forLoop_zero]⟩
  | succ n ih =>
    obtain ⟨s2, P, hP, hd⟩ := ih
    refine ⟨(rocca_dec B s2 [] 0 ct (n * ROCCA_BLOCK_SIZE)).1,
      P ++ ((xor_u128 (B.aes_round s2.s1 s2.s5) (load_u128 ct (n * ROCCA_BLOCK_SIZE))).toBytes ++
        (xor_u128 (B.aes_round (xor_u128 s2.s0 s2.s4) s2.s2)
          (load_u128 ct (n * ROCCA_BLOCK_SIZE + ROCCA_BLOCK_SIZE / 2))).toBytes), ?_, ?_⟩
    · simp only [List.length_append, length_toBytes, hP]; omega
    · intro d hlen
      rw [forLoop_succ, hd d (by omega)]
      simp only [rocca_dec, ROCCA_BLOCK_SIZE, Nat.reduceDiv]
      rw [store2_append_at P (d.drop (32 * n)) _ _ (by simp; omega) (n * 32) (by omega)]
      simp only [List.drop_drop, Prod.mk.injEq, true_and]
      congr 2

/-- The full-block loop of `rocca_seal`: after `n` blocks the destination is `32 * n` bytes that do not depend on its old contents, followed by its old bytes from `32 * n` on. -/
theorem enc_loop_form (B : Backend) (pt : List Byte) (n : Nat) (s : rocca_state) :
    ∃ (s2 : rocca_state) (P : List Byte), P.length = 32 * n ∧
      ∀ d : List Byte, 32 * n ≤ d.length →
        forLoop n (fun i (st : rocca_state × List Byte) =>
          rocca_enc B st.1 st.2 (i * ROCCA_BLOCK_SIZE) pt (i * ROCCA_BLOCK_SIZE)) (s, d)
          = (s2, P ++ d.drop (32 * n)) := by
  induction n with
  | zero => exact ⟨s, [], rfl, fun d _ => by simp [forLoop_zero]⟩
  | succ n ih =>
    obtain ⟨s2, P, hP, hd⟩ := ih
    refine ⟨(rocca_enc B s2 [] 0 pt (n * ROCCA_BLOCK_SIZE)).1,
      P ++ ((xor_u128 (B.aes_round s2.s1 s2.s5) (load_u128 pt (n * ROCCA_BLOCK_SIZE))).toBytes ++
        (xor_u128 (B.aes_round (xor_u128 s2.s0 s2.s4) s2.s2)
          (load_u128 pt (n * ROCCA_BLOCK_SIZE + ROCCA_BLOCK_SIZE / 2))).toBytes), ?_, ?_⟩
    · simp only [List.length_append, length_toBytes, hP]; omega
    · intro d hlen
      rw [forLoop_succ, hd d (by omega)]
      simp only [rocca_enc, ROCCA_BLOCK_SIZE, Nat.reduceDiv]
      rw [store2_append_at P (d.drop (32 * n)) _ _ (by simp; omega) (n * 32) (by omega)]
      simp only [List.drop_drop, Prod.mk.injEq, true_and]
      congr 2


/-- The call `memset` keeps the length of the buffer. -/
theorem length_memset (buf : List Byte) (off : Nat) (c : Byte) (n : Nat) :
    (memset buf off c n).length = buf.length := length_write _ _ _

/-- The call `memcpy` keeps the length of the destination. -/
theorem length_memcpy (dst : List Byte) (doff : Nat) (src : List Byte) (soff n : Nat) :
    (memcpy dst doff src soff n).length = dst.length := length_write _ _ _

/-- A write at the end of a prefix `P`, expressed by the same write into a fresh buffer. -/
theorem write_relocate (P R X : List Byte) (off : Nat) (hoff : off = P.length)
    (hR : X.length ≤ R.length) :
    write (P ++ R) off X = P ++ write (List.replicate X.length 0) 0 X ++ R.drop X.length := by
  subst hoff
  rw [write_append_at P R X hR]
  have h := write_append_at [] (List.replicate X.length 0) X (by simp)
  simp only [List.nil_append, List.length_nil] at h
  rw [h]
  simp

/-- The function `rocca_dec_partial` writes the same `r` bytes wherever its destination pointer points. -/
theorem dec_partial_relocate (B : Backend) (s : rocca_state) (P R : List Byte) (r : Nat)
    (src : List Byte) (off : Nat) (hr : r ≤ 32) (hoff : off = P.length) (hR : r ≤ R.length) :
    rocca_dec_partial B s (P ++ R) off r src
      = (( rocca_dec_partial B s (List.replicate r 0) 0 r src).1,
          P ++ ( rocca_dec_partial B s (List.replicate r 0) 0 r src).2 ++ R.drop r) := by
  simp only [ rocca_dec_partial, memcpy, List.drop_zero, Prod.mk.injEq, true_and]
  have key : ∀ X : List Byte, X.length = r →
      write (P ++ R) off X = P ++ write (List.replicate r 0) 0 X ++ R.drop r := by
    intro X hX
    have := write_relocate P R X off hoff (by omega)
    rw [hX] at this
    exact this
  rw [key]
  simp only [List.length_take, length_memset, length_store, List.length_replicate,
    ROCCA_BLOCK_SIZE]
  omega

/-- The function `rocca_dec_partial` keeps the length of the destination. -/
theorem dec_partial_length (B : Backend) (s : rocca_state) (d : List Byte) (off r : Nat)
    (src : List Byte) : ( rocca_dec_partial B s d off r src).2.length = d.length := by
  simp only [ rocca_dec_partial, length_memcpy]

/-- The decryption phase of `rocca_open`: its state and the first `L` bytes it leaves do not depend on the old contents of the destination, whose bytes from `L` on are kept. -/
theorem decrypt_ct_form (B : Backend) (s : rocca_state) (tmp ct : List Byte) (L : Nat) :
    ∃ (s2 : rocca_state) (P : List Byte), P.length = L ∧
      ∀ d : List Byte, L ≤ d.length →
        (decrypt_ct B s tmp d ct L).1 = s2 ∧ (decrypt_ct B s tmp d ct L).2.2 = P ++ d.drop L := by
  obtain ⟨s2, P, hP, hd⟩ := dec_loop_form B ct (L / 32) s
  have hL : 32 * (L / 32) + L % 32 = L := Nat.div_add_mod L 32
  by_cases hr : L % 32 = 0
  · refine ⟨s2, P, by omega, fun d hlen => ?_⟩
    simp only [decrypt_ct, ROCCA_BLOCK_SIZE, hr, ne_eq, not_true_eq_false, if_false]
    simp only [ROCCA_BLOCK_SIZE] at hd
    rw [hd d (by omega)]
    have e : 32 * (L / 32) = L := by omega
    rw [e]
    exact ⟨rfl, rfl⟩
  · refine ⟨( rocca_dec_partial B s2 (List.replicate (L % 32) 0) 0 (L % 32)
        (memcpy (memset tmp 0 0 32) 0 ct 0 (L % 32))).1,
      P ++ ( rocca_dec_partial B s2 (List.replicate (L % 32) 0) 0 (L % 32)
        (memcpy (memset tmp 0 0 32) 0 ct 0 (L % 32))).2, ?_, fun d hlen => ?_⟩
    · rw [List.length_append, dec_partial_length, List.length_replicate]
      omega
    · simp only [decrypt_ct, ROCCA_BLOCK_SIZE, ne_eq, hr, not_false_eq_true, if_true]
      simp only [ROCCA_BLOCK_SIZE] at hd
      rw [hd d (by omega)]
      rw [dec_partial_relocate B s2 P (d.drop (32 * (L / 32))) (L % 32) _ _
        (by omega) (by omega) (by simp; omega)]
      simp only [List.drop_drop, List.append_assoc, true_and]
      rw [hL]


/-- The full-block loop of `rocca_open` keeps the length of the destination. -/
theorem length_dec_loop (B : Backend) (ct : List Byte) (n : Nat) (s : rocca_state)
    (d : List Byte) :
    (forLoop n (fun i (st : rocca_state × List Byte) =>
      rocca_dec B st.1 st.2 (i * ROCCA_BLOCK_SIZE) ct (i * ROCCA_BLOCK_SIZE)) (s, d)).2.length
      = d.length := by
  induction n with
  | zero => rfl
  | succ n ih =>
    rw [forLoop_succ]
    simp only [rocca_dec, length_store]
    exact ih

/-- The decryption phase of `rocca_open` keeps the length of the destination. -/
theorem length_decrypt_ct (B : Backend) (s : rocca_state) (tmp d ct : List Byte) (L : Nat) :
    (decrypt_ct B s tmp d ct L).2.2.length = d.length := by
  simp only [decrypt_ct]
  split_ifs
  · simp only [dec_partial_length]
    exact length_dec_loop B ct _ s d
  · exact length_dec_loop B ct _ s d

/-- C11: with `dst = NULL`, `rocca_open` returns false and there is nothing it could write.
With a destination of at least `dst_len` bytes, whenever it returns false, by a failed
validation or by a tag mismatch, the destination keeps its length and its first `dst_len`
bytes are zero; when `dst_len` is at least `ciphertext_len - 16`, as `rocca.h` asks, the
bytes behind them are the old ones, so that no decrypted byte is left anywhere. -/
theorem rocca_open_zero_on_failure (B : Backend) (dst_len : Nat) (key : Option (List Byte))
    (key_len : Nat) (nonce : Option (List Byte)) (nonce_len : Nat)
    (ciphertext : Option (List Byte)) (ciphertext_len : Nat)
    (additional_data : Option (List Byte)) (additional_data_len : Nat) :
    rocca_open B none dst_len key key_len nonce nonce_len ciphertext ciphertext_len
        additional_data additional_data_len = (false, none) ∧
    ∀ d : List Byte, dst_len ≤ d.length →
      (rocca_open B (some d) dst_len key key_len nonce nonce_len ciphertext ciphertext_len
        additional_data additional_data_len).1 = false →
      ∃ d2 : List Byte,
        (rocca_open B (some d) dst_len key key_len nonce nonce_len ciphertext ciphertext_len
          additional_data additional_data_len).2 = some d2 ∧
        d2.length = d.length ∧ d2.take dst_len = List.replicate dst_len 0 ∧
        (ciphertext_len - 16 ≤ dst_len → d2.drop dst_len = d.drop dst_len) := by
  refine ⟨rfl, fun d hd => ?_⟩
  have hz : ∀ D : List Byte, D.length = d.length →
      (memset_s D dst_len 0 dst_len).length = d.length ∧
      (memset_s D dst_len 0 dst_len).take dst_len = List.replicate dst_len 0 ∧
      (memset_s D dst_len 0 dst_len).drop dst_len = D.drop dst_len := by
    intro D hD
    rw [memset_s_eq D dst_len dst_len (by omega)]
    refine ⟨by simp; omega, by simp, by simp⟩
  simp only [rocca_open]
  split_ifs with h1 h2 h3 h4 h5
  · intro _
    exact ⟨_, rfl, (hz d rfl).1, (hz d rfl).2.1, fun _ => (hz d rfl).2.2⟩
  · intro _
    exact ⟨_, rfl, (hz d rfl).1, (hz d rfl).2.1, fun _ => (hz d rfl).2.2⟩
  · intro _
    exact ⟨_, rfl, (hz d rfl).1, (hz d rfl).2.1, fun _ => (hz d rfl).2.2⟩
  · intro _
    exact ⟨_, rfl, (hz d rfl).1, (hz d rfl).2.1, fun _ => (hz d rfl).2.2⟩
  · intro _
    have hD := length_decrypt_ct B
      (absorb_ad B (rocca_init B (key.getD []) (nonce.getD []))
        (List.replicate ROCCA_BLOCK_SIZE 0) (additional_data.getD []) additional_data_len).1
      (absorb_ad B (rocca_init B (key.getD []) (nonce.getD []))
        (List.replicate ROCCA_BLOCK_SIZE 0) (additional_data.getD []) additional_data_len).2
      d (ciphertext.getD []) (ciphertext_len - ROCCA_TAG_SIZE)
    refine ⟨_, rfl, (hz _ hD).1, (hz _ hD).2.1, fun hL => ?_⟩
    rw [(hz _ hD).2.2]
    obtain ⟨s2, P, hP, hform⟩ := decrypt_ct_form B
      (absorb_ad B (rocca_init B (key.getD []) (nonce.getD []))
        (List.replicate ROCCA_BLOCK_SIZE 0) (additional_data.getD []) additional_data_len).1
      (absorb_ad B (rocca_init B (key.getD []) (nonce.getD []))
        (List.replicate ROCCA_BLOCK_SIZE 0) (additional_data.getD []) additional_data_len).2
      (ciphertext.getD []) (ciphertext_len - ROCCA_TAG_SIZE)
    simp only [ROCCA_TAG_SIZE] at hform hP ⊢
    rw [(hform d (by omega)).2, List.drop_append_eq_append_drop, List.drop_drop, hP,
      List.drop_of_length_le (by omega), List.nil_append]
    congr 1
    omega
  · intro h
    simp at h


/-- C13: for arguments that pass the validation there are a result `ok` and
`ciphertext_len - 16` bytes `P`, neither depending on the destination, such that for every
destination `d` of at least `ciphertext_len - 16` bytes `rocca_open` returns `ok` and, when
`ok` is true, leaves `P` followed by the old bytes of `d` from `ciphertext_len - 16` on; with
`ciphertext_len = 16` it leaves `d` as it was. -/
theorem rocca_open_output_extent (B : Backend) (dst_len : Nat) (k n c : List Byte)
    (ciphertext_len : Nat) (additional_data : Option (List Byte)) (additional_data_len : Nat)
    (hlen : 16 ≤ ciphertext_len) (had : additional_data = none ↔ additional_data_len = 0) :
    ∃ (ok : Bool) (P : List Byte), P.length = ciphertext_len - 16 ∧
      ∀ d : List Byte, ciphertext_len - 16 ≤ d.length →
        (rocca_open B (some d) dst_len (some k) 32 (some n) 16 (some c) ciphertext_len
          additional_data additional_data_len).1 = ok ∧
        (ok = true →
          (rocca_open B (some d) dst_len (some k) 32 (some n) 16 (some c) ciphertext_len
            additional_data additional_data_len).2 = some (P ++ d.drop (ciphertext_len - 16))) ∧
        (ok = true → ciphertext_len = 16 →
          (rocca_open B (some d) dst_len (some k) 32 (some n) 16 (some c) ciphertext_len
            additional_data additional_data_len).2 = some d) := by
  obtain ⟨s2, P, hP, hform⟩ := decrypt_ct_form B
    (absorb_ad B (rocca_init B k n) (List.replicate 32 0) (additional_data.getD [])
      additional_data_len).1
    (absorb_ad B (rocca_init B k n) (List.replicate 32 0) (additional_data.getD [])
      additional_data_len).2
    c (ciphertext_len - 16)
  have h4 : (additional_data.isNone != (additional_data_len == 0)) = false := by
    cases additional_data <;> simp_all
  have h1 : ¬ ciphertext_len < ROCCA_OVERHEAD := by
    simp only [ROCCA_OVERHEAD, ROCCA_TAG_SIZE]; omega
  refine ⟨B.constant_time_compare_u128 (load_u128 c (ciphertext_len - 16))
    (rocca_mac B s2 additional_data_len (ciphertext_len - 16)), P, hP, fun d hd => ?_⟩
  obtain ⟨hs, hdst⟩ := hform d hd
  simp only [rocca_open, Option.isNone_some, Bool.false_or, h4, decide_eq_true_eq, h1,
    ROCCA_KEY_SIZE, ROCCA_NONCE_SIZE, ROCCA_TAG_SIZE, ROCCA_BLOCK_SIZE, bne_self_eq_false,
    Bool.false_eq_true, if_false, Option.getD_some, hs, hdst]
  split_ifs with h5
  · simp only [Bool.not_eq_true'] at h5
    simp [h5]
  · simp only [Bool.not_eq_true', Bool.not_eq_false] at h5
    refine ⟨h5.symm, fun _ => rfl, fun _ h16 => ?_⟩
    have hP0 : P = [] := List.length_eq_zero.mp (by omega)
    simp [hP0, h16]


/-- The encryption phase of `rocca_seal` keeps the length of the destination and its bytes from `L` on. -/
theorem encrypt_pt_frame (B : Backend) (s : rocca_state) (tmp pt : List Byte) (L : Nat)
    (d : List Byte) (hd : L ≤ d.length) :
    (encrypt_pt B s tmp d pt L).2.2.length = d.length ∧
    (encrypt_pt B s tmp d pt L).2.2.drop L = d.drop L := by
  obtain ⟨s2, P, hP, hform⟩ := enc_loop_form B pt (L / 32) s
  have hL : 32 * (L / 32) + L % 32 = L := Nat.div_add_mod L 32
  have hD : (P ++ d.drop (32 * (L / 32))).drop L = d.drop L := by
    rw [List.drop_append_eq_append_drop, List.drop_drop, hP,
      List.drop_of_length_le (by omega), List.nil_append]
    congr 1
    omega
  have hlenD : (P ++ d.drop (32 * (L / 32))).length = d.length := by
    simp only [List.length_append, List.length_drop, hP]
    omega
  simp only [ROCCA_BLOCK_SIZE] at hform
  simp only [encrypt_pt, ROCCA_BLOCK_SIZE]
  rw [hform d (by omega)]
  split_ifs with hr
  · refine ⟨by rw [length_memcpy]; exact hlenD, ?_⟩
    simp only [memcpy]
    rw [drop_write_of_le _ _ _ _ (by simp only [List.length_take]; omega)]
    exact hD
  · exact ⟨hlenD, hD⟩

/-- C12: when the arguments pass the validation and the destination has at least
`plaintext_len + 16` bytes, `rocca_seal` returns true, the destination keeps its length, its
bytes `plaintext_len .. plaintext_len + 16` are the sixteen bytes of the tag `rocca_mac`
returns for the state behind the encryption phase and the two lengths, and its bytes from
`plaintext_len + 16` on are the old ones. -/
theorem rocca_seal_layout (B : Backend) (dst_len : Nat) (d k n : List Byte)
    (plaintext : Option (List Byte)) (plaintext_len : Nat)
    (additional_data : Option (List Byte)) (additional_data_len : Nat)
    (hov : plaintext_len ≤ SIZE_MAX - 16)
    (hpt : plaintext = none ↔ plaintext_len = 0)
    (had : additional_data = none ↔ additional_data_len = 0)
    (hd : plaintext_len + 16 ≤ d.length) :
    ∃ d2 : List Byte,
      rocca_seal B (some d) dst_len (some k) 32 (some n) 16 plaintext plaintext_len
        additional_data additional_data_len = (true, some d2) ∧
      d2.length = d.length ∧
      (d2.drop plaintext_len).take 16 =
        (rocca_mac B
          (encrypt_pt B
            (absorb_ad B (rocca_init B k n) (List.replicate 32 0) (additional_data.getD [])
              additional_data_len).1
            (absorb_ad B (rocca_init B k n) (List.replicate 32 0) (additional_data.getD [])
              additional_data_len).2
            d (plaintext.getD []) plaintext_len).1
          additional_data_len plaintext_len).toBytes ∧
      d2.drop (plaintext_len + 16) = d.drop (plaintext_len + 16) := by
  have h1 : ¬ (SIZE_MAX - plaintext_len < ROCCA_OVERHEAD) := by
    simp only [SIZE_MAX, ROCCA_OVERHEAD, ROCCA_TAG_SIZE] at hov ⊢
    omega
  have h4 : ((plaintext.isNone != (plaintext_len == 0)) ||
      (additional_data.isNone != (additional_data_len == 0))) = false := by
    cases plaintext <;> cases additional_data <;> simp_all
  obtain ⟨hlen, hdrop⟩ := encrypt_pt_frame B
    (absorb_ad B (rocca_init B k n) (List.replicate 32 0) (additional_data.getD [])
      additional_data_len).1
    (absorb_ad B (rocca_init B k n) (List.replicate 32 0) (additional_data.getD [])
      additional_data_len).2
    (plaintext.getD []) plaintext_len d (by omega)
  have hL : plaintext_len / 32 * 32 + plaintext_len % 32 = plaintext_len := by omega
  simp only [rocca_seal, Option.isNone_some, Bool.false_or, h4, decide_eq_true_eq, h1,
    ROCCA_KEY_SIZE, ROCCA_NONCE_SIZE, ROCCA_BLOCK_SIZE, bne_self_eq_false,
    Bool.false_eq_true, if_false, Option.getD_some, hL]
  refine ⟨_, rfl, ?_, ?_, ?_⟩
  · rw [length_store, hlen]
  · rw [store_u128, write_eq_of_le _ _ _ (by rw [length_toBytes, hlen]; exact hd)]
    rw [List.append_assoc, List.drop_append_eq_append_drop, List.length_take,
      Nat.min_eq_left (by omega), Nat.sub_self, List.drop_zero,
      List.drop_of_length_le (by rw [List.length_take]; omega), List.nil_append,
      List.take_append_eq_append_take, length_toBytes, Nat.sub_self, List.take_zero,
      List.append_nil, List.take_of_length_le (by rw [length_toBytes])]
  · rw [store_u128, drop_write_of_le _ _ _ _ (by rw [length_toBytes])]
    simpa [List.drop_drop, Nat.add_comm] using congrArg (List.drop 16) hdrop


/-- Two buffers of the same length with the same bytes are equal. -/
theorem ext_getD (l1 l2 : List Byte) (hl : l1.length = l2.length)
    (h : ∀ i, i < l1.length → l1.getD i 0 = l2.getD i 0) : l1 = l2 := by
  apply List.ext_getElem hl
  intro i h1 h2
  have := h i h1
  rw [List.getD_eq_getElem _ _ h1, List.getD_eq_getElem _ _ h2] at this
  exact this

/-- Zero padding does not change reads with default zero. -/
theorem getD_append_zeros (l : List Byte) (k j : Nat) :
    (l ++ List.replicate k 0).getD j 0 = l.getD j 0 := by
  by_cases h : j < l.length
  · rw [List.getD_append _ _ _ _ h]
  · rw [List.getD_append_right _ _ _ _ (by omega), List.getD_eq_default l 0 (by omega)]
    simp only [List.getD_eq_getElem?_getD, List.getElem?_replicate]
    split_ifs <;> rfl

/-- The bytes of a truncated buffer. -/
theorem getD_take (l : List Byte) (r j : Nat) :
    (l.take r).getD j 0 = if j < r then l.getD j 0 else 0 := by
  simp only [List.getD_eq_getElem?_getD, List.getElem?_take]
  split_ifs <;> rfl

/-- The bytes of a buffer behind a zeroing `memset`. -/
theorem getD_memset_zero (buf : List Byte) (off n j : Nat) :
    (memset buf off 0 n).getD j 0 = if off ≤ j ∧ j < off + n then 0 else buf.getD j 0 := by
  simp only [memset, getD_write, List.length_replicate]
  by_cases h : off ≤ j ∧ j < off + n
  · rw [if_pos h]
    by_cases h2 : j < buf.length
    · rw [if_pos ⟨h.1, h.2, h2⟩]
      simp only [List.getD_eq_getElem?_getD, List.getElem?_replicate]
      split_ifs <;> rfl
    · rw [if_neg (by omega), List.getD_eq_default buf 0 (by omega)]
  · rw [if_neg h, if_neg (by omega)]


/-- The bytes of a 32-byte block behind two stores at offsets 0 and 16. -/
theorem getD_store2 (d : List Byte) (x y : U128) (hd : d.length = 32) (j : Nat) (hj : j < 32) :
    (store_u128 (store_u128 d 0 x) 16 y).getD j 0
      = if j < 16 then x.byte j else y.byte (j - 16) := by
  rw [getD_store, length_store, getD_store]
  by_cases h : j < 16
  · rw [if_neg (by omega), if_pos ⟨by omega, by omega, by omega⟩, if_pos h]
    rfl
  · rw [if_pos ⟨by omega, by omega, by omega⟩, if_neg h]

/-- The block `pad` of `rocca_dec_partial`, computed from the first `p.length` bytes of the `rocca_enc` output of the zero-padded `p` under the same key stream `ks0`, `ks1`, is the zero-padded `p` again. -/
theorem pad_roundtrip (ks0 ks1 : U128) (p cbuf : List Byte) (hr : p.length ≤ 32)
    (hc : cbuf.length = 32) :
    memset
      (store_u128
        (store_u128 (List.replicate 32 0) 0
          (xor_u128 ks0 (load_u128
            ((store_u128 (store_u128 cbuf 0
                (xor_u128 ks0 (load_u128 (p ++ List.replicate (32 - p.length) 0) 0))) 16
                (xor_u128 ks1 (load_u128 (p ++ List.replicate (32 - p.length) 0) 16))).take
              p.length ++ List.replicate (32 - p.length) 0) 0)))
        16
        (xor_u128 ks1 (load_u128
          ((store_u128 (store_u128 cbuf 0
              (xor_u128 ks0 (load_u128 (p ++ List.replicate (32 - p.length) 0) 0))) 16
              (xor_u128 ks1 (load_u128 (p ++ List.replicate (32 - p.length) 0) 16))).take
            p.length ++ List.replicate (32 - p.length) 0) 16)))
      p.length 0 (32 - p.length)
      = p ++ List.replicate (32 - p.length) 0 := by
  apply ext_getD
  · simp only [length_memset, length_store, List.length_replicate, List.length_append]
    omega
  · intro j hj
    simp only [length_memset, length_store, List.length_replicate] at hj
    rw [getD_memset_zero, getD_append_zeros]
    by_cases h : j < p.length
    · rw [if_neg (by omega), getD_store2 _ _ _ (by simp) j hj]
      by_cases h16 : j < 16
      · rw [if_pos h16, byte_xor, byte_load _ _ _ h16, getD_append_zeros, getD_take,
          Nat.zero_add, if_pos h, getD_store2 _ _ _ hc j hj, if_pos h16, byte_xor,
          byte_xor_cancel, byte_load _ _ _ h16, getD_append_zeros, Nat.zero_add]
      · rw [if_neg h16, byte_xor, byte_load _ _ _ (by omega), getD_append_zeros, getD_take,
          if_pos (by omega), getD_store2 _ _ _ hc _ (by omega), if_neg (by omega), byte_xor]
        have e : 16 + (j - 16) - 16 = j - 16 := by omega
        rw [e, byte_xor_cancel, byte_load _ _ _ (by omega), getD_append_zeros]
        congr 1
        omega
    · rw [if_pos (by omega), List.getD_eq_default p 0 (by omega)]


/-- C20: for every state `s` and every plaintext `p` of at most 31 bytes, let `rocca_enc` on
the zero-padded `p` give a ciphertext block and a new state.  Then `rocca_dec_partial` on
`s` with `dst_len = p.length` and the first `p.length` bytes of that block, zero-padded,
ends in the same new state and writes exactly `p` to `dst + doff`. -/
theorem dec_partial_inverts_enc (B : Backend) (s : rocca_state) (p cbuf dst : List Byte)
    (doff : Nat) (hr : p.length ≤ 31) (hc : cbuf.length = 32)
    (hd : doff + p.length ≤ dst.length) :
    ( rocca_dec_partial B s dst doff p.length
        ((rocca_enc B s cbuf 0 (p ++ List.replicate (32 - p.length) 0) 0).2.take p.length
          ++ List.replicate (32 - p.length) 0)).1
      = (rocca_enc B s cbuf 0 (p ++ List.replicate (32 - p.length) 0) 0).1 ∧
    ( rocca_dec_partial B s dst doff p.length
        ((rocca_enc B s cbuf 0 (p ++ List.replicate (32 - p.length) 0) 0).2.take p.length
          ++ List.replicate (32 - p.length) 0)).2
      = dst.take doff ++ p ++ dst.drop (doff + p.length) := by
  simp only [ rocca_dec_partial, rocca_enc, ROCCA_BLOCK_SIZE, Nat.reduceDiv, Nat.zero_add]
  rw [pad_roundtrip _ _ p cbuf (by omega) hc]
  refine ⟨rfl, ?_⟩
  simp only [memcpy, List.drop_zero, List.take_left']
  rw [write_eq_of_le _ _ _ hd]

/-- C14 as stated fails: with key, nonce and associated data of `01` bytes and a plaintext
of 32 bytes `01`, `rocca_seal` writes 48 bytes, `f8 30 a9 72 ..`, into a zeroed 80-byte
buffer; neither the buffer nor its first 48 bytes are those of the ciphertext of test
vector #2. -/
theorem spec_vector_3_as_worded :
    rocca_seal amd64 (some (List.replicate 80 0)) 80 (some (List.replicate 32 0x01)) 32
        (some (List.replicate 16 0x01)) 16 (some (List.replicate 32 0x01)) 32
        (some (List.replicate 32 0x01)) 32 = (true, some spec_vector_3_output) ∧
    spec_vector_3_output ≠ vector_2.ciphertext ∧
    spec_vector_3_output.take 48 ≠ vector_2.ciphertext.take 48 := by
  decide!

/-- C14 as amended: with a 32-byte key of `01` bytes, a 16-byte nonce of `01` bytes, 32
bytes `01` of associated data and a plaintext of 64 bytes `00`, `rocca_seal` produces the
80-byte ciphertext of test vector #2, on both backends. -/
theorem spec_vector_3_with_zero_plaintext :
    rocca_seal amd64 (some (List.replicate 80 0)) 80 (some (List.replicate 32 0x01)) 32
        (some (List.replicate 16 0x01)) 16 (some (List.replicate 64 0x00)) 64
        (some (List.replicate 32 0x01)) 32 = (true, some vector_2.ciphertext) ∧
    rocca_seal arm64 (some (List.replicate 80 0)) 80 (some (List.replicate 32 0x01)) 32
        (some (List.replicate 16 0x01)) 16 (some (List.replicate 64 0x00)) 64
        (some (List.replicate 32 0x01)) 32 = (true, some vector_2.ciphertext) := by
  decide!

/-- C15 (code defect): for the 33-byte plaintext `pt33` (`n = 1`, `r = 1`) `rocca_seal`
leaves `ct33`, whose first 32 bytes are not the `rocca_enc` output `pt33_block0` of
plaintext block 0 (byte 0 is overwritten), and whose byte 32 is the `00` the buffer held
before, not the first byte `35` of `rocca_enc` applied to the zero-padded trailing byte
`pt33[32]` in the state behind block 0. -/
theorem seal_partial_block_misplaced :
    rocca_seal amd64 (some (List.replicate 49 0)) 49 (some zero_key) 32 (some zero_nonce) 16
        (some pt33) 33 none 0 = (true, some ct33) ∧
    (rocca_enc amd64 (zero_start amd64) (List.replicate 32 0) 0 pt33 0).2 = pt33_block0 ∧
    ct33.take 32 ≠ pt33_block0 ∧
    (rocca_enc amd64 (rocca_enc amd64 (zero_start amd64) (List.replicate 32 0) 0 pt33 0).1
        (List.replicate 32 0) 0 (pt33.drop 32 ++ List.replicate 31 0) 0).2.take 1 = [0x35] ∧
    (ct33.drop 32).take 1 = [0x00] := by
  decide!

/-- C16 (code defect): for the ciphertext `tampered49` (body of 33 bytes, `n = 1`, `r = 1`)
`rocca_open` returns true and leaves `15` in `dst[32]`, whereas `rocca_dec_partial` applied
to the zero-padded trailing byte `ciphertext[32]` in the state behind block 0 gives `14`:
the byte that was decrypted is `ciphertext[0]`. -/
theorem open_partial_block_misread :
    rocca_open amd64 (some (List.replicate 33 0)) 33 (some zero_key) 32 (some zero_nonce) 16
        (some tampered49) 49 none 0 = (true, some opened49) ∧
    ( rocca_dec_partial amd64
        (rocca_dec amd64 (zero_start amd64) (List.replicate 32 0) 0 tampered49 0).1
        (List.replicate 1 0) 0 1
        ((tampered49.drop 32).take 1 ++ List.replicate 31 0)).2 = [0x14] ∧
    opened49.drop 32 = [0x15] := by
  decide!

/-- C17 (code defect): for the 33 bytes of associated data `00 .. 00 01` the state behind
the associated-data phase of the code, `absorb_ad`, is not the state `absorb_ad_spec` that
absorbs the zero-padded trailing byte `01`; it is the state `absorb_ad_spec` reaches for 33
bytes `00`, the trailing block being built from `additional_data[0]`. -/
theorem absorb_ad_reads_first_bytes_again :
    (absorb_ad amd64 (rocca_init amd64 zero_key zero_nonce) (List.replicate 32 0)
        (List.replicate 32 0 ++ [0x01]) 33).1
      ≠ absorb_ad_spec amd64 (rocca_init amd64 zero_key zero_nonce)
          (List.replicate 32 0 ++ [0x01]) 33 ∧
    (absorb_ad amd64 (rocca_init amd64 zero_key zero_nonce) (List.replicate 32 0)
        (List.replicate 32 0 ++ [0x01]) 33).1
      = absorb_ad_spec amd64 (rocca_init amd64 zero_key zero_nonce) (List.replicate 33 0) 33 := by
  decide!

/-- C18 (code defect): the comparator of `rocca_arm64.h` returns true for two registers that
differ in byte 0 (the tag `2e e3 7e 01 ..` of `test_zero` and the same with `2f` for `2e`). -/
theorem arm64_compare_accepts_unequal :
    Arm64.constant_time_compare_u128 (load_u128 test_zero_ciphertext 0) (load_u128 forged_tag 0)
      = true ∧
    load_u128 test_zero_ciphertext 0 ≠ load_u128 forged_tag 0 ∧
    (load_u128 test_zero_ciphertext 0).byte 0 ≠ (load_u128 forged_tag 0).byte 0 := by
  decide!

/-- The forged tag of `forged_tag` makes `rocca_open` fail on amd64 and zero a destination
of sixteen `ff` bytes. -/
theorem rocca_open_zero_on_failure_witness :
    ∃ d2 : List Byte,
      (rocca_open amd64 (some (List.replicate 16 0xff)) 16 (some zero_key) 32 (some zero_nonce)
        16 (some forged_tag) 16 none 0).2 = some d2 ∧
      d2.length = (List.replicate 16 (0xff : Byte)).length ∧
      d2.take 16 = List.replicate 16 0 ∧
      (16 - 16 ≤ 16 → d2.drop 16 = (List.replicate 16 (0xff : Byte)).drop 16) :=
  (rocca_open_zero_on_failure amd64 16 (some zero_key) 32 (some zero_nonce) 16
    (some forged_tag) 16 none 0).2 (List.replicate 16 0xff) (by decide) (by decide!)

/-- The layout of `rocca_seal` for a three-byte plaintext in a buffer of nineteen `ff`
bytes. -/
theorem rocca_seal_layout_witness :
    ∃ d2 : List Byte,
      rocca_seal amd64 (some (List.replicate 19 0xff)) 19 (some zero_key) 32 (some zero_nonce)
        16 (some [0x01, 0x02, 0x03]) 3 none 0 = (true, some d2) ∧
      d2.length = (List.replicate 19 (0xff : Byte)).length ∧
      d2.drop (3 + 16) = (List.replicate 19 (0xff : Byte)).drop (3 + 16) :=
  Exists.imp (fun _ h => ⟨h.1, h.2.1, h.2.2.2⟩)
    (rocca_seal_layout amd64 19 (List.replicate 19 0xff) zero_key zero_nonce
      (some [0x01, 0x02, 0x03]) 3 none 0 (by decide) (by simp) (by simp) (by decide))

/-- The output extent of `rocca_open` for the 49-byte ciphertext `accepted49`. -/
theorem rocca_open_output_extent_witness :
    ∃ (ok : Bool) (P : List Byte), P.length = 49 - 16 ∧
      ∀ d : List Byte, 49 - 16 ≤ d.length →
        (rocca_open amd64 (some d) 33 (some zero_key) 32 (some zero_nonce) 16 (some accepted49)
          49 none 0).1 = ok ∧
        (ok = true →
          (rocca_open amd64 (some d) 33 (some zero_key) 32 (some zero_nonce) 16
            (some accepted49) 49 none 0).2 = some (P ++ d.drop (49 - 16))) ∧
        (ok = true → 49 = 16 →
          (rocca_open amd64 (some d) 33 (some zero_key) 32 (some zero_nonce) 16
            (some accepted49) 49 none 0).2 = some d) :=
  rocca_open_output_extent amd64 33 zero_key zero_nonce accepted49 49 none 0 (by decide)
    (by simp)

/-- The symmetry of `rocca_enc` and `rocca_dec_partial` on the three bytes `01 02 03` in the
state `zero_start amd64`. -/
theorem dec_partial_inverts_enc_witness :
    ( rocca_dec_partial amd64 (zero_start amd64) (List.replicate 5 0) 1
        ([0x01, 0x02, 0x03] : List Byte).length
        ((rocca_enc amd64 (zero_start amd64) (List.replicate 32 0) 0
            ([0x01, 0x02, 0x03] ++ List.replicate (32 - ([0x01, 0x02, 0x03] : List Byte).length) 0)
            0).2.take ([0x01, 0x02, 0x03] : List Byte).length
          ++ List.replicate (32 - ([0x01, 0x02, 0x03] : List Byte).length) 0)).1
      = (rocca_enc amd64 (zero_start amd64) (List.replicate 32 0) 0
          ([0x01, 0x02, 0x03] ++ List.replicate (32 - ([0x01, 0x02, 0x03] : List Byte).length) 0)
          0).1 ∧
    ( rocca_dec_partial amd64 (zero_start amd64) (List.replicate 5 0) 1
        ([0x01, 0x02, 0x03] : List Byte).length
        ((rocca_enc amd64 (zero_start amd64) (List.replicate 32 0) 0
            ([0x01, 0x02, 0x03] ++ List.replicate (32 - ([0x01, 0x02, 0x03] : List Byte).length) 0)
            0).2.take ([0x01, 0x02, 0x03] : List Byte).length
          ++ List.replicate (32 - ([0x01, 0x02, 0x03] : List Byte).length) 0)).2
      = (List.replicate 5 (0 : Byte)).take 1 ++ [0x01, 0x02, 0x03]
          ++ (List.replicate 5 (0 : Byte)).drop (1 + ([0x01, 0x02, 0x03] : List Byte).length) :=
  dec_partial_inverts_enc amd64 (zero_start amd64) [0x01, 0x02, 0x03] (List.replicate 32 0)
    (List.replicate 5 0) 1 (by decide) (by decide) (by decide)

/-- A loop whose body ignores the counter is the iteration of that body. -/
theorem forLoop_const {σ : Type} (n : Nat) (f : σ → σ) (init : σ) :
    forLoop n (fun _ s => f s) init = f^[n] init := by
  induction n with
  | zero => rfl
  | succ n ih => rw [forLoop_succ, ih, Function.iterate_succ_apply']

/-- The sixteen bytes of a loaded register are the sixteen bytes of the buffer at the offset. -/
theorem toBytes_load (l : List Byte) (off : Nat) (h : off + 16 ≤ l.length) :
    (load_u128 l off).toBytes = (l.drop off).take 16 := by
  apply ext_getD
  · rw [length_toBytes, List.length_take, List.length_drop]; omega
  · intro i hi
    rw [length_toBytes] at hi
    rw [getD_toBytes _ _ hi, byte_load _ _ _ hi, getD_take, if_pos hi]
    simp only [List.getD_eq_getElem?_getD, List.getElem?_drop]

/-- C21: for every backend, state `s` and inputs `x0`, `x1`, the state `rocca_update` returns has
lane 0 = `s7 xor x0`, lane 1 = `AES(s0, s7)`, lane 2 = `s1 xor s6`, lane 3 = `AES(s2, s1)`,
lane 4 = `s3 xor x1`, lane 5 = `AES(s4, s3)`, lane 6 = `AES(s5, s4)` and lane 7 = `s0 xor s6`,
every lane on the right being a lane of the state before the call. -/
theorem rocca_update_lanes (B : Backend) (s : rocca_state) (x0 x1 : U128) :
    (rocca_update B s x0 x1).s0 = xor_u128 s.s7 x0 ∧
    (rocca_update B s x0 x1).s1 = B.aes_round s.s0 s.s7 ∧
    (rocca_update B s x0 x1).s2 = xor_u128 s.s1 s.s6 ∧
    (rocca_update B s x0 x1).s3 = B.aes_round s.s2 s.s1 ∧
    (rocca_update B s x0 x1).s4 = xor_u128 s.s3 x1 ∧
    (rocca_update B s x0 x1).s5 = B.aes_round s.s4 s.s3 ∧
    (rocca_update B s x0 x1).s6 = B.aes_round s.s5 s.s4 ∧
    (rocca_update B s x0 x1).s7 = xor_u128 s.s0 s.s6 :=
  ⟨rfl, rfl, rfl, rfl, rfl, rfl, rfl, rfl⟩

/-- C22: for a 32-byte key and a 16-byte nonce `rocca_init` is twenty applications of
`rocca_update` with the inputs `Z0`, `Z1` to the state `S[0] = K1`, `S[1] = N`, `S[2] = Z0`,
`S[3] = Z1`, `S[4] = N xor K1`, `S[5] = 0`, `S[6] = K0`, `S[7] = 0`, where the registers `K0`,
`K1`, `N` hold `key[0..16)`, `key[16..32)` and the nonce, `Z0` holds
`cd 65 ef 23 91 44 37 71 22 ae 28 d7 98 2f 8a 42`, `Z1` holds
`bc db 89 81 a5 db b5 e9 2f 3b 4d ec cf fb c0 b5` (memory order) and `0` is sixteen zero
bytes. -/
theorem rocca_init_eq (B : Backend) (key nonce : List Byte) (hk : key.length = 32)
    (hn : nonce.length = 16) :
    rocca_init B key nonce =
      (fun s => rocca_update B s (load_u128 Z0 0) (load_u128 Z1 0))^[20]
        { s0 := load_u128 key 16, s1 := load_u128 nonce 0, s2 := load_u128 Z0 0,
          s3 := load_u128 Z1 0, s4 := xor_u128 (load_u128 nonce 0) (load_u128 key 16),
          s5 := zero_u128, s6 := load_u128 key 0, s7 := zero_u128 } ∧
    (load_u128 key 0).toBytes = key.take 16 ∧
    (load_u128 key 16).toBytes = key.drop 16 ∧
    (load_u128 nonce 0).toBytes = nonce ∧
    (load_u128 Z0 0).toBytes =
      [0xcd, 0x65, 0xef, 0x23, 0x91, 0x44, 0x37, 0x71, 0x22, 0xae, 0x28, 0xd7, 0x98, 0x2f, 0x8a,
        0x42] ∧
    (load_u128 Z1 0).toBytes =
      [0xbc, 0xdb, 0x89, 0x81, 0xa5, 0xdb, 0xb5, 0xe9, 0x2f, 0x3b, 0x4d, 0xec, 0xcf, 0xfb, 0xc0,
        0xb5] ∧
    zero_u128.toBytes = List.replicate 16 0 := by
  refine ⟨?_, ?_, ?_, ?_, ?_, ?_, ?_⟩
  · simp only [rocca_init, ROCCA_ROUNDS, ROCCA_KEY_SIZE, Nat.reduceDiv]
    exact forLoop_const 20 _ _
  · rw [toBytes_load _ _ (by omega), List.drop_zero]
  · rw [toBytes_load _ _ (by omega), List.take_of_length_le (by simp; omega)]
  · rw [toBytes_load _ _ (by omega), List.drop_zero, List.take_of_length_le (by omega)]
  · rw [toBytes_load _ _ (by decide)]; rfl
  · rw [toBytes_load _ _ (by decide)]; rfl
  · decide

/-- A number below `2 ^ 64` has no byte beyond its first eight. -/
theorem byteAt_eq_zero (v i : Nat) (hv : v < 2 ^ 64) (hi : 8 ≤ i) : byteAt v i = 0 := by
  unfold byteAt
  rw [Nat.shiftRight_eq_div_pow, Nat.div_eq_of_lt]
  calc v < 2 ^ 64 := hv
    _ ≤ 2 ^ (8 * i) := Nat.pow_le_pow_right (by decide) (by omega)

/-- Loading the block that `put_le64` filled from a block whose upper eight bytes are zero gives the
register of value `v`. -/
theorem load_put_le64 (buf : List Byte) (v : Nat) (hv : v < 2 ^ 64) (hb : buf.length = 16)
    (hz : ∀ i, 8 ≤ i → buf.getD i 0 = 0) :
    load_u128 (put_le64 buf v) 0 = U128.ofNat v := by
  apply U128.ext_bytes
  intro i hi
  rw [byte_load _ _ _ hi, Nat.zero_add, put_le64, getD_write]
  have hv2 : v % 2 ^ 128 = v := Nat.mod_eq_of_lt (lt_trans hv (by decide))
  apply Fin.ext
  by_cases h8 : i < 8
  · rw [if_pos ⟨by omega, by simp; omega, by omega⟩]
    simp only [Nat.sub_zero, List.getD_eq_getElem?_getD, List.getElem?_map,
      List.getElem?_range h8, Option.map_some', Option.getD_some, U128.byte, U128.ofNat, hv2]
    rfl
  · rw [if_neg (by simp; omega), hz i (by omega)]
    simp only [U128.byte, U128.ofNat, hv2]
    rw [byteAt_eq_zero v i hv (by omega)]
    rfl

/-- The call `put_le64` leaves the bytes from index 8 on as they were. -/
theorem getD_put_le64_high (buf : List Byte) (v : Nat) (i : Nat) (hi : 8 ≤ i) :
    (put_le64 buf v).getD i 0 = buf.getD i 0 := by
  rw [put_le64, getD_write, if_neg (by simp; omega)]

/-- The sixteen bytes of a register of value `v < 2 ^ 64`: the little-endian bytes of `v`, then
eight zero bytes. -/
theorem toBytes_ofNat64 (v : Nat) (hv : v < 2 ^ 64) :
    (U128.ofNat v).toBytes =
      (List.range 8).map (fun i => (Fin.ofNat (v / 256 ^ i) : Byte)) ++ List.replicate 8 0 := by
  have hv2 : v % 2 ^ 128 = v := Nat.mod_eq_of_lt (lt_trans hv (by decide))
  apply ext_getD
  · simp [length_toBytes]
  · intro i hi
    rw [length_toBytes] at hi
    rw [getD_toBytes _ _ hi]
    by_cases h8 : i < 8
    · rw [List.getD_append _ _ _ _ (by simp; exact h8)]
      simp only [List.getD_eq_getElem?_getD, List.getElem?_map, List.getElem?_range h8,
        Option.map_some', Option.getD_some, U128.byte, U128.ofNat, hv2]
      apply Fin.ext
      show byteAt v i = (v / 256 ^ i) % 256
      unfold byteAt
      rw [Nat.shiftRight_eq_div_pow, Nat.pow_mul]
    · rw [List.getD_append_right _ _ _ _ (by simp; omega)]
      simp only [List.getD_eq_getElem?_getD, List.getElem?_replicate]
      apply Fin.ext
      simp only [U128.byte, U128.ofNat, hv2]
      rw [byteAt_eq_zero v i hv (by omega)]
      split_ifs <;> rfl

/-- C23: for byte lengths `a` and `m`, `rocca_mac` is twenty applications of `rocca_update` with
the inputs `X0`, `X1`, followed by the xor of the eight lanes, where the sixteen bytes of `X0`
are the eight little-endian bytes of `a * 8 mod 2 ^ 64` followed by eight zero bytes, those of
`X1` are the same for `m * 8 mod 2 ^ 64`, and for `a < 2 ^ 61` (`m < 2 ^ 61`) the encoded value
is the bit count `8 * a` (`8 * m`). -/
theorem rocca_mac_eq (B : Backend) (s : rocca_state) (a m : Nat) :
    rocca_mac B s a m =
      (let t := (fun s => rocca_update B s (U128.ofNat (a * 8 % 2 ^ 64))
          (U128.ofNat (m * 8 % 2 ^ 64)))^[20] s;
        xor_u128 (xor_u128 (xor_u128 (xor_u128 (xor_u128 (xor_u128 (xor_u128 t.s0 t.s1) t.s2)
          t.s3) t.s4) t.s5) t.s6) t.s7) ∧
    (U128.ofNat (a * 8 % 2 ^ 64)).toBytes =
      (List.range 8).map (fun i => (Fin.ofNat (a * 8 % 2 ^ 64 / 256 ^ i) : Byte))
        ++ List.replicate 8 0 ∧
    (U128.ofNat (m * 8 % 2 ^ 64)).toBytes =
      (List.range 8).map (fun i => (Fin.ofNat (m * 8 % 2 ^ 64 / 256 ^ i) : Byte))
        ++ List.replicate 8 0 ∧
    (a < 2 ^ 61 → (U128.ofNat (a * 8 % 2 ^ 64)).val = 8 * a) ∧
    (m < 2 ^ 61 → (U128.ofNat (m * 8 % 2 ^ 64)).val = 8 * m) := by
  have ha : a * 8 % 2 ^ 64 < 2 ^ 64 := Nat.mod_lt _ (by decide)
  have hm : m * 8 % 2 ^ 64 < 2 ^ 64 := Nat.mod_lt _ (by decide)
  have hz : ∀ i, 8 ≤ i → (List.replicate 16 (0 : Byte)).getD i 0 = 0 := by
    intro i _
    simp only [List.getD_eq_getElem?_getD, List.getElem?_replicate]
    split_ifs <;> rfl
  refine ⟨?_, toBytes_ofNat64 _ ha, toBytes_ofNat64 _ hm, ?_, ?_⟩
  · simp only [rocca_mac, ROCCA_ROUNDS]
    rw [load_put_le64 _ _ ha (by simp) hz,
      load_put_le64 _ _ hm (by simp [put_le64, length_write])
        (fun i hi => by rw [getD_put_le64_high _ _ _ hi]; exact hz i hi),
      forLoop_const]
  · intro h
    simp only [U128.ofNat]
    omega
  · intro h
    simp only [U128.ofNat]
    omega

/-- Two buffers of one length that agree in their first `r` bytes have the same first `r` bytes. -/
theorem take_congr (l1 l2 : List Byte) (r : Nat) (hl : l1.length = l2.length)
    (h : ∀ j, j < r → l1.getD j 0 = l2.getD j 0) : l1.take r = l2.take r := by
  apply ext_getD
  · simp only [List.length_take, hl]
  · intro i hi
    simp only [List.length_take] at hi
    rw [getD_take, getD_take, if_pos (by omega), if_pos (by omega), h i (by omega)]

/-- The block loop of `rocca_open` reads only the first `32 * n` bytes of the ciphertext. -/
theorem dec_loop_congr (B : Backend) (c1 c2 : List Byte) (n : Nat) (s : rocca_state)
    (d : List Byte) (h : ∀ j, j < 32 * n → c1.getD j 0 = c2.getD j 0) :
    forLoop n (fun i (st : rocca_state × List Byte) =>
        rocca_dec B st.1 st.2 (i * ROCCA_BLOCK_SIZE) c1 (i * ROCCA_BLOCK_SIZE)) (s, d)
      = forLoop n (fun i (st : rocca_state × List Byte) =>
        rocca_dec B st.1 st.2 (i * ROCCA_BLOCK_SIZE) c2 (i * ROCCA_BLOCK_SIZE)) (s, d) := by
  induction n with
  | zero => rfl
  | succ n ih =>
    rw [forLoop_succ, forLoop_succ, ih (fun j hj => h j (by omega))]
    simp only [rocca_dec, ROCCA_BLOCK_SIZE, Nat.reduceDiv]
    rw [load_congr c1 c2 (n * 32) (n * 32) (fun i hi => h _ (by omega)),
      load_congr c1 c2 (n * 32 + 16) (n * 32 + 16) (fun i hi => h _ (by omega))]

/-- The block loop of `rocca_seal` reads only the first `32 * n` bytes of the plaintext. -/
theorem enc_loop_congr (B : Backend) (p1 p2 : List Byte) (n : Nat) (s : rocca_state)
    (d : List Byte) (h : ∀ j, j < 32 * n → p1.getD j 0 = p2.getD j 0) :
    forLoop n (fun i (st : rocca_state × List Byte) =>
        rocca_enc B st.1 st.2 (i * ROCCA_BLOCK_SIZE) p1 (i * ROCCA_BLOCK_SIZE)) (s, d)
      = forLoop n (fun i (st : rocca_state × List Byte) =>
        rocca_enc B st.1 st.2 (i * ROCCA_BLOCK_SIZE) p2 (i * ROCCA_BLOCK_SIZE)) (s, d) := by
  induction n with
  | zero => rfl
  | succ n ih =>
    rw [forLoop_succ, forLoop_succ, ih (fun j hj => h j (by omega))]
    simp only [rocca_enc, ROCCA_BLOCK_SIZE, Nat.reduceDiv]
    rw [load_congr p1 p2 (n * 32) (n * 32) (fun i hi => h _ (by omega)),
      load_congr p1 p2 (n * 32 + 16) (n * 32 + 16) (fun i hi => h _ (by omega))]

/-- For `L ≥ 32` the decryption phase reads only the first `32 * (L / 32)` bytes of the ciphertext:
its partial block is filled from `ciphertext[0 ..)`. -/
theorem decrypt_ct_congr (B : Backend) (s : rocca_state) (tmp d c1 c2 : List Byte) (L : Nat)
    (hL : 32 ≤ L) (hl : c1.length = c2.length)
    (h : ∀ j, j < 32 * (L / 32) → c1.getD j 0 = c2.getD j 0) :
    decrypt_ct B s tmp d c1 L = decrypt_ct B s tmp d c2 L := by
  have hn : L % 32 ≤ 32 * (L / 32) := by omega
  have hloop := dec_loop_congr B c1 c2 (L / 32) s d h
  simp only [ROCCA_BLOCK_SIZE] at hloop
  simp only [decrypt_ct, memcpy, List.drop_zero, ROCCA_BLOCK_SIZE]
  rw [hloop, take_congr c1 c2 (L % 32) hl (fun j hj => h j (by omega))]

/-- For `L ≥ 32` the encryption phase reads only the first `32 * (L / 32)` bytes of the plaintext:
its partial block is filled from `plaintext[0 ..)`. -/
theorem encrypt_pt_congr (B : Backend) (s : rocca_state) (tmp d p1 p2 : List Byte) (L : Nat)
    (hL : 32 ≤ L) (hl : p1.length = p2.length)
    (h : ∀ j, j < 32 * (L / 32) → p1.getD j 0 = p2.getD j 0) :
    encrypt_pt B s tmp d p1 L = encrypt_pt B s tmp d p2 L := by
  have hn : L % 32 ≤ 32 * (L / 32) := by omega
  have hloop := enc_loop_congr B p1 p2 (L / 32) s d h
  simp only [ROCCA_BLOCK_SIZE] at hloop
  simp only [encrypt_pt, memcpy, List.drop_zero, ROCCA_BLOCK_SIZE]
  rw [hloop, take_congr p1 p2 (L % 32) hl (fun j hj => h j (by omega))]

/-- C25: with a ciphertext body of `L = ciphertext_len - 16 ≥ 32` bytes, two calls of
`rocca_open` whose ciphertext buffers have one length and agree at every index below
`32 * (L / 32)` and at every index from `L` on, that is, differ at most in the bytes
`32 * (L / 32) .. L - 1`, and whose other arguments are the same, return the same boolean and
leave the same destination. -/
theorem rocca_open_ignores_tail (B : Backend) (dst : Option (List Byte)) (dst_len : Nat)
    (key : Option (List Byte)) (key_len : Nat) (nonce : Option (List Byte)) (nonce_len : Nat)
    (c1 c2 : List Byte) (ciphertext_len : Nat) (additional_data : Option (List Byte))
    (additional_data_len : Nat) (hL : 32 ≤ ciphertext_len - 16)
    (hlen : c1.length = c2.length)
    (hagree : ∀ j, j < 32 * ((ciphertext_len - 16) / 32) ∨ ciphertext_len - 16 ≤ j →
      c1.getD j 0 = c2.getD j 0) :
    rocca_open B dst dst_len key key_len nonce nonce_len (some c1) ciphertext_len
        additional_data additional_data_len
      = rocca_open B dst dst_len key key_len nonce nonce_len (some c2) ciphertext_len
        additional_data additional_data_len := by
  cases dst with
  | none => rfl
  | some d =>
    simp only [rocca_open, Option.isNone_some, Option.getD_some, ROCCA_TAG_SIZE]
    rw [load_congr c1 c2 (ciphertext_len - 16) (ciphertext_len - 16)
      (fun i _ => hagree _ (Or.inr (by omega)))]
    rw [decrypt_ct_congr B _ _ d c1 c2 (ciphertext_len - 16) hL hlen
      (fun j hj => hagree j (Or.inl hj))]

/-- C26: with `plaintext_len ≥ 32`, two calls of `rocca_seal` whose plaintext buffers have one
length and agree at every index below `32 * (plaintext_len / 32)` and at every index from
`plaintext_len` on, that is, differ at most in the bytes
`32 * (plaintext_len / 32) .. plaintext_len - 1`, and whose other arguments (the old contents
of `dst` among them) are the same, return the same boolean and leave the same destination;
and when `plaintext_len` is no multiple of 32 there are two different plaintexts of that
length with the same result, so `rocca_seal` is not injective in the plaintext. -/
theorem rocca_seal_ignores_tail (B : Backend) (dst : Option (List Byte)) (dst_len : Nat)
    (key : Option (List Byte)) (key_len : Nat) (nonce : Option (List Byte)) (nonce_len : Nat)
    (plaintext_len : Nat) (additional_data : Option (List Byte)) (additional_data_len : Nat)
    (hL : 32 ≤ plaintext_len) :
    (∀ p1 p2 : List Byte, p1.length = p2.length →
      (∀ j, j < 32 * (plaintext_len / 32) ∨ plaintext_len ≤ j → p1.getD j 0 = p2.getD j 0) →
      rocca_seal B dst dst_len key key_len nonce nonce_len (some p1) plaintext_len
          additional_data additional_data_len
        = rocca_seal B dst dst_len key key_len nonce nonce_len (some p2) plaintext_len
          additional_data additional_data_len) ∧
    (plaintext_len % 32 ≠ 0 →
      ∃ p1 p2 : List Byte, p1.length = plaintext_len ∧ p2.length = plaintext_len ∧ p1 ≠ p2 ∧
        rocca_seal B dst dst_len key key_len nonce nonce_len (some p1) plaintext_len
            additional_data additional_data_len
          = rocca_seal B dst dst_len key key_len nonce nonce_len (some p2) plaintext_len
            additional_data additional_data_len) := by
  have main : ∀ p1 p2 : List Byte, p1.length = p2.length →
      (∀ j, j < 32 * (plaintext_len / 32) ∨ plaintext_len ≤ j → p1.getD j 0 = p2.getD j 0) →
      rocca_seal B dst dst_len key key_len nonce nonce_len (some p1) plaintext_len
          additional_data additional_data_len
        = rocca_seal B dst dst_len key key_len nonce nonce_len (some p2) plaintext_len
          additional_data additional_data_len := by
    intro p1 p2 hlen hagree
    cases dst with
    | none => rfl
    | some d =>
      simp only [rocca_seal, Option.isNone_some, Option.getD_some]
      rw [encrypt_pt_congr B _ _ d p1 p2 plaintext_len hL hlen
        (fun j hj => hagree j (Or.inl hj))]
  refine ⟨main, fun hmod => ⟨List.replicate plaintext_len 0,
    (List.replicate plaintext_len 0).set (plaintext_len - 1) 1, ?_, ?_, ?_, ?_⟩⟩
  · rw [List.length_replicate]
  · rw [List.length_set, List.length_replicate]
  · intro h
    have h2 := congrArg (fun l : List Byte => l.getD (plaintext_len - 1) 0) h
    simp only [List.getD_eq_getElem?_getD] at h2
    rw [List.getElem?_set_self (by rw [List.length_replicate]; omega),
      List.getElem?_replicate, if_pos (by omega)] at h2
    exact absurd h2 (by decide)
  · apply main
    · rw [List.length_set]
    · intro j hj
      simp only [List.getD_eq_getElem?_getD]
      rw [List.getElem?_set_ne (by omega)]

/-- Xor with the same register twice gives the register back. -/
theorem xor_u128_cancel (a b : U128) : xor_u128 a (xor_u128 a b) = b := by
  cases a with
  | mk av ah =>
    cases b with
    | mk bv bh =>
      simp only [xor_u128, U128.mk.injEq]
      rw [← Nat.xor_assoc, Nat.xor_self, Nat.zero_xor]

/-- The block loop of `rocca_seal` keeps the length of the destination. -/
theorem length_enc_loop (B : Backend) (pt : List Byte) (n : Nat) (s : rocca_state)
    (d : List Byte) :
    (forLoop n (fun i (st : rocca_state × List Byte) =>
      rocca_enc B st.1 st.2 (i * ROCCA_BLOCK_SIZE) pt (i * ROCCA_BLOCK_SIZE)) (s, d)).2.length
      = d.length := by
  induction n with
  | zero => rfl
  | succ n ih =>
    rw [forLoop_succ]
    simp only [rocca_enc, length_store]
    exact ih

/-- The bytes of a buffer behind the two stores of one 32-byte block at offset `o`. -/
theorem getD_store2_at (d : List Byte) (o : Nat) (x y : U128) (hd : o + 32 ≤ d.length)
    (j : Nat) :
    (store_u128 (store_u128 d o x) (o + 16) y).getD j 0
      = if o ≤ j ∧ j < o + 16 then x.byte (j - o)
        else if o + 16 ≤ j ∧ j < o + 32 then y.byte (j - (o + 16)) else d.getD j 0 := by
  rw [getD_store, length_store, getD_store]
  by_cases h1 : o ≤ j ∧ j < o + 16
  · rw [if_neg (by omega), if_pos ⟨h1.1, h1.2, by omega⟩, if_pos h1]
  · by_cases h2 : o + 16 ≤ j ∧ j < o + 32
    · rw [if_pos ⟨h2.1, by omega, by omega⟩, if_neg h1, if_pos h2]
    · rw [if_neg (by omega), if_neg (by omega), if_neg h1, if_neg h2]

/-- A buffer that agrees on `o .. o + 32` with one that received the two stores of a block at offset
`o` loads the two stored registers there. -/
theorem load_store2_low (d : List Byte) (o : Nat) (x y : U128) (hd : o + 32 ≤ d.length)
    (c : List Byte)
    (hc : ∀ j, o ≤ j → j < o + 32 →
      c.getD j 0 = (store_u128 (store_u128 d o x) (o + 16) y).getD j 0) :
    load_u128 c o = x ∧ load_u128 c (o + 16) = y := by
  constructor
  · apply U128.ext_bytes
    intro i hi
    rw [byte_load _ _ _ hi, hc _ (by omega) (by omega), getD_store2_at _ _ _ _ hd,
      if_pos ⟨by omega, by omega⟩]
    congr 1
    omega
  · apply U128.ext_bytes
    intro i hi
    rw [byte_load _ _ _ hi, hc _ (by omega) (by omega), getD_store2_at _ _ _ _ hd,
      if_neg (by omega), if_pos ⟨by omega, by omega⟩]
    congr 1
    omega

/-- One block: `rocca_dec` on the block `rocca_enc` wrote ends in the state of `rocca_enc` and
writes the plaintext block; `rocca_enc` changes no byte outside the block. -/
theorem enc_dec_step (B : Backend) (s : rocca_state) (dE dD pt c : List Byte) (o : Nat)
    (hE : o + 32 ≤ dE.length) (hD : o + 32 ≤ dD.length)
    (hc : ∀ j, o ≤ j → j < o + 32 → c.getD j 0 = (rocca_enc B s dE o pt o).2.getD j 0) :
    (rocca_dec B s dD o c o).1 = (rocca_enc B s dE o pt o).1 ∧
    (∀ j, (rocca_dec B s dD o c o).2.getD j 0
      = if o ≤ j ∧ j < o + 32 then pt.getD j 0 else dD.getD j 0) ∧
    (∀ j, ¬ (o ≤ j ∧ j < o + 32) → (rocca_enc B s dE o pt o).2.getD j 0 = dE.getD j 0) := by
  simp only [rocca_enc, rocca_dec, ROCCA_BLOCK_SIZE, Nat.reduceDiv] at hc ⊢
  obtain ⟨hl0, hl1⟩ := load_store2_low _ o _ _ hE c hc
  rw [hl0, hl1, xor_u128_cancel, xor_u128_cancel]
  refine ⟨rfl, fun j => ?_, fun j hj => ?_⟩
  · rw [getD_store2_at _ _ _ _ hD]
    by_cases c1 : o ≤ j ∧ j < o + 16
    · rw [if_pos c1, if_pos ⟨by omega, by omega⟩, byte_load _ _ _ (by omega)]
      congr 1
      omega
    · rw [if_neg c1]
      by_cases c2 : o + 16 ≤ j ∧ j < o + 32
      · rw [if_pos c2, if_pos ⟨by omega, by omega⟩, byte_load _ _ _ (by omega)]
        congr 1
        omega
      · rw [if_neg c2, if_neg (by omega)]
  · rw [getD_store2_at _ _ _ _ hE, if_neg (by omega), if_neg (by omega)]

/-- The block loop of `rocca_open`, run on what the block loop of `rocca_seal` wrote, ends in the
same state and writes the plaintext blocks. -/
theorem enc_dec_loop (B : Backend) (pt c d1 d2 : List Byte) (n : Nat) (s : rocca_state)
    (h1 : 32 * n ≤ d1.length) (h2 : 32 * n ≤ d2.length)
    (hc : ∀ j, j < 32 * n → c.getD j 0 =
      (forLoop n (fun i (st : rocca_state × List Byte) =>
        rocca_enc B st.1 st.2 (i * ROCCA_BLOCK_SIZE) pt (i * ROCCA_BLOCK_SIZE)) (s, d1)).2.getD
          j 0) :
    (forLoop n (fun i (st : rocca_state × List Byte) =>
        rocca_dec B st.1 st.2 (i * ROCCA_BLOCK_SIZE) c (i * ROCCA_BLOCK_SIZE)) (s, d2)).1
      = (forLoop n (fun i (st : rocca_state × List Byte) =>
        rocca_enc B st.1 st.2 (i * ROCCA_BLOCK_SIZE) pt (i * ROCCA_BLOCK_SIZE)) (s, d1)).1 ∧
    ∀ j, j < 32 * n →
      (forLoop n (fun i (st : rocca_state × List Byte) =>
        rocca_dec B st.1 st.2 (i * ROCCA_BLOCK_SIZE) c (i * ROCCA_BLOCK_SIZE)) (s, d2)).2.getD
          j 0 = pt.getD j 0 := by
  induction n with
  | zero => exact ⟨rfl, fun j hj => absurd hj (by omega)⟩
  | succ n ih =>
    have hE := length_enc_loop B pt n s d1
    have hD := length_dec_loop B c n s d2
    simp only [ROCCA_BLOCK_SIZE] at hc hE hD ih ⊢
    rw [forLoop_succ] at hc
    rw [forLoop_succ, forLoop_succ]
    have hstep := fun dD hdD => enc_dec_step B
      (forLoop n (fun i (st : rocca_state × List Byte) =>
        rocca_enc B st.1 st.2 (i * 32) pt (i * 32)) (s, d1)).1
      (forLoop n (fun i (st : rocca_state × List Byte) =>
        rocca_enc B st.1 st.2 (i * 32) pt (i * 32)) (s, d1)).2 dD pt c (n * 32)
      (by rw [hE]; omega) hdD (fun j hj1 hj2 => hc j (by omega))
    have hcn : ∀ j, j < 32 * n → c.getD j 0 =
        (forLoop n (fun i (st : rocca_state × List Byte) =>
          rocca_enc B st.1 st.2 (i * 32) pt (i * 32)) (s, d1)).2.getD j 0 := by
      intro j hj
      rw [hc j (by omega)]
      exact (hstep d2 (by omega)).2.2 j (by omega)
    obtain ⟨ihs, ihd⟩ := ih (by omega) (by omega) hcn
    rw [ihs]
    obtain ⟨hs1, hs2, -⟩ := hstep
      (forLoop n (fun i (st : rocca_state × List Byte) =>
        rocca_dec B st.1 st.2 (i * 32) c (i * 32)) (s, d2)).2 (by rw [hD]; omega)
    refine ⟨hs1, fun j hj => ?_⟩
    rw [hs2 j]
    by_cases c1 : n * 32 ≤ j ∧ j < n * 32 + 32
    · rw [if_pos c1]
    · rw [if_neg c1]
      exact ihd j (by omega)

/-- Loading at the offset of a store that fits gives the stored register. -/
theorem load_store_same (d : List Byte) (off : Nat) (x : U128) (h : off + 16 ≤ d.length) :
    load_u128 (store_u128 d off x) off = x := by
  apply U128.ext_bytes
  intro i hi
  rw [byte_load _ _ _ hi, getD_store, if_pos ⟨by omega, by omega, by omega⟩]
  congr 1
  omega

/-- The associated-data phase keeps the length of the scratch block. -/
theorem length_absorb_ad (B : Backend) (s : rocca_state) (tmp ad : List Byte) (n : Nat) :
    (absorb_ad B s tmp ad n).2.length = tmp.length := by
  simp only [absorb_ad]
  split_ifs
  · simp only [length_memcpy, length_memset]
  · rfl

/-- Two buffers of at least `r` bytes that agree in their first `r` bytes have the same first `r`
bytes. -/
theorem take_eq_of_getD (l1 l2 : List Byte) (r : Nat) (h1 : r ≤ l1.length) (h2 : r ≤ l2.length)
    (h : ∀ j, j < r → l1.getD j 0 = l2.getD j 0) : l1.take r = l2.take r := by
  apply ext_getD
  · rw [List.length_take, List.length_take]; omega
  · intro i hi
    rw [List.length_take] at hi
    rw [getD_take, getD_take, if_pos (by omega), if_pos (by omega)]
    exact h i (by omega)

/-- The scratch block behind `memset(tmp, 0, 32)` and `memcpy(tmp, src, r)`: the first `r` bytes of
`src`, zero-padded to 32 bytes. -/
theorem scratch_block (tmp src : List Byte) (r : Nat) (ht : tmp.length = 32) (hr : r ≤ 32)
    (hs : r ≤ src.length) :
    memcpy (memset tmp 0 0 32) 0 src 0 r = src.take r ++ List.replicate (32 - r) 0 := by
  apply ext_getD
  · rw [length_memcpy, length_memset, List.length_append, List.length_take,
      List.length_replicate]
    omega
  · intro i hi
    rw [length_memcpy, length_memset] at hi
    simp only [memcpy, List.drop_zero]
    rw [getD_write, getD_append_zeros, getD_memset_zero, List.length_take, length_memset,
      Nat.sub_zero]
    by_cases c : i < r
    · rw [if_pos ⟨by omega, by omega, by omega⟩]
    · rw [if_neg (by omega), if_pos ⟨by omega, by omega⟩, getD_take, if_neg c]

/-- The partial block in place: `rocca_dec_partial` at offset 0 on the first `p.length` bytes of
what `rocca_enc` wrote over the zero-padded block `p` ends in the state of `rocca_enc` and
writes `p`. -/
theorem dec_partial_enc_inplace (B : Backend) (s : rocca_state) (p dst : List Byte)
    (hr : p.length ≤ 31) (hd : p.length ≤ dst.length) :
    rocca_dec_partial B s dst 0 p.length
        ((rocca_enc B s (p ++ List.replicate (32 - p.length) 0) 0
          (p ++ List.replicate (32 - p.length) 0) 0).2.take p.length
          ++ List.replicate (32 - p.length) 0)
      = ((rocca_enc B s (p ++ List.replicate (32 - p.length) 0) 0
          (p ++ List.replicate (32 - p.length) 0) 0).1, p ++ dst.drop p.length) := by
  simp only [ rocca_dec_partial, rocca_enc, ROCCA_BLOCK_SIZE, Nat.reduceDiv, Nat.zero_add]
  rw [pad_roundtrip _ _ p (p ++ List.replicate (32 - p.length) 0) (by omega)
    (by rw [List.length_append, List.length_replicate]; omega)]
  simp only [memcpy, List.drop_zero, List.take_left']
  rw [write_eq_of_le _ _ _ (by omega)]
  simp only [List.take_zero, List.nil_append, Nat.zero_add]

/-- The decryption phase inverts the encryption phase when the length is below 32 or a multiple of
32: on a ciphertext that agrees in its first `L` bytes with what `encrypt_pt` left it ends in
the same state and writes the plaintext. -/
theorem decrypt_encrypt (B : Backend) (s : rocca_state) (tmp d1 d2 pt c : List Byte) (L : Nat)
    (ht : tmp.length = 32) (hpt : pt.length = L) (hshape : L < 32 ∨ L % 32 = 0)
    (hd1 : L ≤ d1.length) (hd2 : L ≤ d2.length) (hcl : L ≤ c.length)
    (hc : ∀ j, j < L → c.getD j 0 = (encrypt_pt B s tmp d1 pt L).2.2.getD j 0) :
    (decrypt_ct B s tmp d2 c L).1 = (encrypt_pt B s tmp d1 pt L).1 ∧
    (decrypt_ct B s tmp d2 c L).2.2 = pt ++ d2.drop L := by
  subst hpt
  by_cases hr : pt.length % 32 = 0
  · have hn : 32 * (pt.length / 32) = pt.length := by omega
    simp only [encrypt_pt, ROCCA_BLOCK_SIZE, hr, ne_eq, not_true_eq_false, if_false] at hc
    simp only [decrypt_ct, encrypt_pt, ROCCA_BLOCK_SIZE, hr, ne_eq, not_true_eq_false, if_false]
    have key := enc_dec_loop B pt c d1 d2 (pt.length / 32) s (by omega) (by omega)
      (fun j hj => hc j (by omega))
    obtain ⟨s2, P, hP, hform⟩ := dec_loop_form B c (pt.length / 32) s
    have hf := hform d2 (by omega)
    simp only [ROCCA_BLOCK_SIZE] at key hf
    refine ⟨key.1, ?_⟩
    have k2 := key.2
    rw [hf] at k2 ⊢
    dsimp only at k2 ⊢
    rw [hn]
    congr 1
    apply ext_getD _ _ (by omega)
    intro i hi
    have := k2 i (by omega)
    simp only [List.getD_eq_getElem?_getD] at this ⊢
    rw [List.getElem?_append_left hi] at this
    exact this
  · have hlt : pt.length < 32 := by omega
    have hdiv : pt.length / 32 = 0 := by omega
    have hmod : pt.length % 32 = pt.length := by omega
    have h0 : ¬ pt.length = 0 := by omega
    simp only [encrypt_pt, ROCCA_BLOCK_SIZE, hdiv, hmod, forLoop_zero, ne_eq, h0,
      not_false_eq_true, if_true] at hc
    simp only [decrypt_ct, encrypt_pt, ROCCA_BLOCK_SIZE, hdiv, hmod, forLoop_zero, ne_eq, h0,
      not_false_eq_true, if_true, Nat.zero_mul]
    rw [scratch_block tmp pt _ ht (by omega) (by omega), List.take_of_length_le (by omega)] at hc ⊢
    rw [scratch_block tmp c _ ht (by omega) hcl]
    have hE : (rocca_enc B s (pt ++ List.replicate (32 - pt.length) 0) 0
        (pt ++ List.replicate (32 - pt.length) 0) 0).2.length = 32 := by
      simp only [rocca_enc, length_store, List.length_append, List.length_replicate]
      omega
    have htake : c.take pt.length = (rocca_enc B s (pt ++ List.replicate (32 - pt.length) 0) 0
        (pt ++ List.replicate (32 - pt.length) 0) 0).2.take pt.length := by
      apply take_eq_of_getD _ _ _ hcl (by omega)
      intro j hj
      rw [hc j hj]
      simp only [memcpy, List.drop_zero]
      rw [getD_write, List.length_take, if_pos ⟨by omega, by omega, by omega⟩, getD_take,
        if_pos (by omega), Nat.sub_zero]
    rw [htake, dec_partial_enc_inplace B s pt d2 (by omega) hd2]
    exact ⟨rfl, rfl⟩

/-- C24: restricted round trip, for a backend with an arbitrary AES round and a comparator that
accepts equal tags.  For every key and nonce passed with the lengths 32 and 16, every
associated data, and every plaintext of `plaintext_len` bytes with `plaintext_len < 32` or
`plaintext_len` a multiple of 32, `rocca_seal` into a destination of at least
`plaintext_len + 16` bytes returns true and leaves a buffer `ct` for which `rocca_open` with
the same key, nonce and associated data and `ciphertext_len = plaintext_len + 16` returns true
and leaves the plaintext in the first `plaintext_len` bytes of its destination, the bytes
behind them unchanged. -/
theorem restricted_round_trip (B : Backend)
    (hB : ∀ a : U128, B.constant_time_compare_u128 a a = true)
    (d1 d2 key nonce : List Byte) (dst_len1 dst_len2 : Nat)
    (plaintext : Option (List Byte)) (plaintext_len : Nat)
    (additional_data : Option (List Byte)) (additional_data_len : Nat)
    (hov : plaintext_len ≤ SIZE_MAX - 16)
    (hpt : plaintext = none ↔ plaintext_len = 0)
    (hptlen : (plaintext.getD []).length = plaintext_len)
    (had : additional_data = none ↔ additional_data_len = 0)
    (hshape : plaintext_len < 32 ∨ plaintext_len % 32 = 0)
    (hd1 : plaintext_len + 16 ≤ d1.length) (hd2 : plaintext_len ≤ d2.length) :
    ∃ ct : List Byte,
      rocca_seal B (some d1) dst_len1 (some key) 32 (some nonce) 16 plaintext plaintext_len
        additional_data additional_data_len = (true, some ct) ∧
      ct.length = d1.length ∧
      rocca_open B (some d2) dst_len2 (some key) 32 (some nonce) 16 (some ct)
        (plaintext_len + 16) additional_data additional_data_len
        = (true, some (plaintext.getD [] ++ d2.drop plaintext_len)) := by
  have h1 : ¬ (SIZE_MAX - plaintext_len < ROCCA_OVERHEAD) := by
    simp only [SIZE_MAX, ROCCA_OVERHEAD, ROCCA_TAG_SIZE] at hov ⊢
    omega
  have h1o : ¬ (plaintext_len + 16 < ROCCA_OVERHEAD) := by
    simp only [ROCCA_OVERHEAD, ROCCA_TAG_SIZE]
    omega
  have h4 : ((plaintext.isNone != (plaintext_len == 0)) ||
      (additional_data.isNone != (additional_data_len == 0))) = false := by
    cases plaintext <;> cases additional_data <;> simp_all
  have h4o : (additional_data.isNone != (additional_data_len == 0)) = false := by
    cases additional_data <;> simp_all
  have htmp := length_absorb_ad B (rocca_init B key nonce) (List.replicate 32 0)
    (additional_data.getD []) additional_data_len
  rw [List.length_replicate] at htmp
  obtain ⟨hlen, -⟩ := encrypt_pt_frame B
    (absorb_ad B (rocca_init B key nonce) (List.replicate 32 0) (additional_data.getD [])
      additional_data_len).1
    (absorb_ad B (rocca_init B key nonce) (List.replicate 32 0) (additional_data.getD [])
      additional_data_len).2
    (plaintext.getD []) plaintext_len d1 (by omega)
  have hL : plaintext_len / 32 * 32 + plaintext_len % 32 = plaintext_len := by omega
  obtain ⟨hst, hdst⟩ := decrypt_encrypt B
    (absorb_ad B (rocca_init B key nonce) (List.replicate 32 0) (additional_data.getD [])
      additional_data_len).1
    (absorb_ad B (rocca_init B key nonce) (List.replicate 32 0) (additional_data.getD [])
      additional_data_len).2
    d1 d2 (plaintext.getD [])
    (store_u128
      (encrypt_pt B
        (absorb_ad B (rocca_init B key nonce) (List.replicate 32 0) (additional_data.getD [])
          additional_data_len).1
        (absorb_ad B (rocca_init B key nonce) (List.replicate 32 0) (additional_data.getD [])
          additional_data_len).2
        d1 (plaintext.getD []) plaintext_len).2.2
      plaintext_len
      (rocca_mac B
        (encrypt_pt B
          (absorb_ad B (rocca_init B key nonce) (List.replicate 32 0) (additional_data.getD [])
            additional_data_len).1
          (absorb_ad B (rocca_init B key nonce) (List.replicate 32 0) (additional_data.getD [])
            additional_data_len).2
          d1 (plaintext.getD []) plaintext_len).1
        additional_data_len plaintext_len))
    plaintext_len htmp hptlen hshape (by omega) hd2
    (by rw [length_store, hlen]; omega)
    (fun j hj => by rw [getD_store, if_neg (by omega)])
  have htag := load_store_same
    (encrypt_pt B
      (absorb_ad B (rocca_init B key nonce) (List.replicate 32 0) (additional_data.getD [])
        additional_data_len).1
      (absorb_ad B (rocca_init B key nonce) (List.replicate 32 0) (additional_data.getD [])
        additional_data_len).2
      d1 (plaintext.getD []) plaintext_len).2.2
    plaintext_len
    (rocca_mac B
      (encrypt_pt B
        (absorb_ad B (rocca_init B key nonce) (List.replicate 32 0) (additional_data.getD [])
          additional_data_len).1
        (absorb_ad B (rocca_init B key nonce) (List.replicate 32 0) (additional_data.getD [])
          additional_data_len).2
        d1 (plaintext.getD []) plaintext_len).1
      additional_data_len plaintext_len)
    (by rw [hlen]; exact hd1)
  refine ⟨store_u128
    (encrypt_pt B
      (absorb_ad B (rocca_init B key nonce) (List.replicate 32 0) (additional_data.getD [])
        additional_data_len).1
      (absorb_ad B (rocca_init B key nonce) (List.replicate 32 0) (additional_data.getD [])
        additional_data_len).2
      d1 (plaintext.getD []) plaintext_len).2.2
    plaintext_len
    (rocca_mac B
      (encrypt_pt B
        (absorb_ad B (rocca_init B key nonce) (List.replicate 32 0) (additional_data.getD [])
          additional_data_len).1
        (absorb_ad B (rocca_init B key nonce) (List.replicate 32 0) (additional_data.getD [])
          additional_data_len).2
        d1 (plaintext.getD []) plaintext_len).1
      additional_data_len plaintext_len), ?_, ?_, ?_⟩
  · simp only [rocca_seal, Option.isNone_some, Bool.false_or, h4, decide_eq_true_eq, h1,
      ROCCA_KEY_SIZE, ROCCA_NONCE_SIZE, ROCCA_BLOCK_SIZE, bne_self_eq_false,
      Bool.false_eq_true, if_false, Option.getD_some, hL]
  · rw [length_store, hlen]
  · simp only [rocca_open, Option.isNone_some, Bool.false_or, h4o, decide_eq_true_eq, h1o,
      ROCCA_KEY_SIZE, ROCCA_NONCE_SIZE, ROCCA_TAG_SIZE, ROCCA_BLOCK_SIZE, bne_self_eq_false,
      Bool.false_eq_true, if_false, Option.getD_some, Nat.add_sub_cancel, hst, hdst, htag, hB,
      Bool.not_true]

/-- The comparator of `rocca_amd64.h` accepts equal tags. -/
theorem amd64_compare_self (a : U128) : amd64.constant_time_compare_u128 a a = true := by
  have hr : List.range 16 = [0, 1, 2, 3, 4, 5, 6, 7, 8, 9, 10, 11, 12, 13, 14, 15] := by decide
  have he : ∀ i, byteAt (_mm_cmpeq_epi8 a a).val i / 128 ≤ 1 := by
    intro i
    have : byteAt (_mm_cmpeq_epi8 a a).val i < 256 := Nat.mod_lt _ (by decide)
    omega
  show Amd64.constant_time_compare_u128 a a = true
  simp only [Amd64.constant_time_compare_u128, _mm_movemask_epi8, hr, List.foldl_cons,
    List.foldl_nil, beq_iff_eq]
  rw [mask_full_iff (fun i => byteAt (_mm_cmpeq_epi8 a a).val i / 128) he]
  intro i hi
  rw [movemask_cmpeq_bit a a i hi, if_pos rfl]

/-- The comparator of `rocca_arm64.h` accepts equal tags. -/
theorem arm64_compare_self (a : U128) : arm64.constant_time_compare_u128 a a = true := by
  have h : veorq_u8 a a = U128.ofNat 0 := by
    cases a
    simp only [veorq_u8, xor_u128, Nat.xor_self]
    rfl
  show Arm64.constant_time_compare_u128 a a = true
  simp only [Arm64.constant_time_compare_u128, h]
  decide

/-- The initialisation under the all-zero key and nonce, on the amd64 backend. -/
theorem rocca_init_eq_witness :
    rocca_init amd64 zero_key zero_nonce =
      (fun s => rocca_update amd64 s (load_u128 Z0 0) (load_u128 Z1 0))^[20]
        { s0 := load_u128 zero_key 16, s1 := load_u128 zero_nonce 0, s2 := load_u128 Z0 0,
          s3 := load_u128 Z1 0,
          s4 := xor_u128 (load_u128 zero_nonce 0) (load_u128 zero_key 16),
          s5 := zero_u128, s6 := load_u128 zero_key 0, s7 := zero_u128 } ∧
    (load_u128 zero_key 16).toBytes = zero_key.drop 16 :=
  ⟨(rocca_init_eq amd64 zero_key zero_nonce (by decide) (by decide)).1,
    (rocca_init_eq amd64 zero_key zero_nonce (by decide) (by decide)).2.2.1⟩

/-- The bit counts `rocca_mac` encodes for 33 bytes of associated data and 3 bytes of message. -/
theorem rocca_mac_eq_witness :
    (U128.ofNat (33 * 8 % 2 ^ 64)).val = 8 * 33 ∧ (U128.ofNat (3 * 8 % 2 ^ 64)).val = 8 * 3 :=
  ⟨(rocca_mac_eq amd64 (zero_start amd64) 33 3).2.2.2.1 (by decide),
    (rocca_mac_eq amd64 (zero_start amd64) 33 3).2.2.2.2 (by decide)⟩

/-- The round trip of the three bytes `01 02 03` under the all-zero key and nonce on the amd64
backend, from a destination of nineteen `ff` bytes into one of five. -/
theorem restricted_round_trip_witness :
    ∃ ct : List Byte,
      rocca_seal amd64 (some (List.replicate 19 0xff)) 19 (some zero_key) 32 (some zero_nonce)
        16 (some [0x01, 0x02, 0x03]) 3 none 0 = (true, some ct) ∧
      ct.length = (List.replicate 19 (0xff : Byte)).length ∧
      rocca_open amd64 (some (List.replicate 5 0xff)) 5 (some zero_key) 32 (some zero_nonce) 16
        (some ct) (3 + 16) none 0
        = (true, some ((some ([0x01, 0x02, 0x03] : List Byte)).getD [] ++
            (List.replicate 5 (0xff : Byte)).drop 3)) :=
  restricted_round_trip amd64 amd64_compare_self (List.replicate 19 0xff)
    (List.replicate 5 0xff) zero_key zero_nonce 19 5 (some [0x01, 0x02, 0x03]) 3 none 0
    (by decide) (by simp) (by decide) (by simp) (by decide) (by decide) (by decide)

/-- The ciphertexts `accepted49` and `tampered49` differ in body byte 32 only; `rocca_open` accepts
the first and treats the second in the same way. -/
theorem rocca_open_ignores_tail_witness :
    accepted49 ≠ tampered49 ∧
    (rocca_open amd64 (some (List.replicate 33 0)) 33 (some zero_key) 32 (some zero_nonce) 16
        (some accepted49) 49 none 0).1 = true ∧
    rocca_open amd64 (some (List.replicate 33 0)) 33 (some zero_key) 32 (some zero_nonce) 16
        (some accepted49) 49 none 0
      = rocca_open amd64 (some (List.replicate 33 0)) 33 (some zero_key) 32 (some zero_nonce) 16
        (some tampered49) 49 none 0 :=
  ⟨by decide, by decide!,
    rocca_open_ignores_tail amd64 (some (List.replicate 33 0)) 33 (some zero_key) 32
      (some zero_nonce) 16 accepted49 tampered49 49 none 0 (by decide) (by decide)
      (fun j hj => by
        have e : tampered49 = accepted49.set 32 0x01 := by decide
        rw [e]
        simp only [List.getD_eq_getElem?_getD]
        rw [List.getElem?_set_ne (by omega)])⟩

/-- Two 33-byte plaintexts that differ in their last byte: `rocca_seal` returns true and leaves the
same 49 bytes for both. -/
theorem rocca_seal_ignores_tail_witness :
    (List.replicate 33 (0 : Byte)) ≠ List.replicate 32 0 ++ [0x01] ∧
    (rocca_seal amd64 (some (List.replicate 49 0)) 49 (some zero_key) 32 (some zero_nonce) 16
        (some (List.replicate 33 0)) 33 none 0).1 = true ∧
    rocca_seal amd64 (some (List.replicate 49 0)) 49 (some zero_key) 32 (some zero_nonce) 16
        (some (List.replicate 33 0)) 33 none 0
      = rocca_seal amd64 (some (List.replicate 49 0)) 49 (some zero_key) 32 (some zero_nonce) 16
        (some (List.replicate 32 0 ++ [0x01])) 33 none 0 :=
  ⟨by decide, by decide!,
    (rocca_seal_ignores_tail amd64 (some (List.replicate 49 0)) 49 (some zero_key) 32
      (some zero_nonce) 16 33 none 0 (by decide)).1 (List.replicate 33 0)
      (List.replicate 32 0 ++ [0x01]) (by decide)
      (fun j hj => by
        have e : (List.replicate 32 0 ++ [0x01] : List Byte) = (List.replicate 33 0).set 32 0x01 := by
          decide
        rw [e]
        simp only [List.getD_eq_getElem?_getD]
        rw [List.getElem?_set_ne (by omega)])⟩

end Rocca
